import Mathlib

/-!
# A shallow embedding of the hashed-page-table VM subsystem

Sources: `kern/vm/vm.c` (page_table_insert, vm_bootstrap, vm_fault) and
`kern/vm/addrspace.c` (as_create, as_copy, as_destroy, as_define_region, ...).

Conventions of the embedding.

* `vaddr_t`, `paddr_t`, `size_t`, `uint32_t` and pointers are 32-bit words, modelled
  as `Nat` with an explicit `% 2 ^ 32` wherever the C arithmetic can wrap.
* A pointer to an address space is a word (`0` is `NULL`); the object it points to
  (`struct addrspace`, a linked list of `struct mem_region`) is passed as a value.
* `struct HPT` is a primary slot with its overflow chain: the `next` pointer chain is
  a `List` of chain nodes, `[]` standing for `next == NULL`.
* The kernel allocators are oracles carried by the state: `kpages` lists the results
  the next calls of `alloc_kpages` give (`0` is failure), `kheap` the results the next
  calls of `kmalloc` give (`0` is `NULL`); an exhausted oracle fails.
* `free_kpages`, `alloc_kpages` and `tlb_random` are logged in the state.
* The page-table lock and the interrupt level are not part of the sequential model.
-/

namespace VM

/-! ## Constants of the kernel headers -/

/-- Modelled from the spec: the header defining `PAGE_SIZE` is not part of the
sources; the spec gives `PAGE_SIZE = 4096`. -/
def PAGE_SIZE : Nat := 4096

/-- Modelled from the spec: `PAGE_FRAME = ~0xFFF` on 32-bit words. -/
def PAGE_FRAME : Nat := 0xfffff000

/-- Modelled from the spec: `USERSTACK = 0x80000000` (scenario constants of the spec). -/
def USERSTACK : Nat := 0x80000000

/-- Modelled from the spec: `USERSPACETOP` is the architecture constant equal to
`USERSTACK`. -/
def USERSPACETOP : Nat := 0x80000000

/-- Modelled from the spec: `STACKPAGES = 18` (scenario constants of the spec). -/
def STACKPAGES : Nat := 18

/-- Modelled from the spec: base of the kernel-virtual window onto physical memory
(the header is not part of the sources; the MIPS value is `0x80000000`). -/
def MIPS_KSEG0 : Nat := 0x80000000

/-- Modelled from the spec: conversion of a kernel-virtual address to a physical
address, a 32-bit subtraction of the window base. -/
def KVADDR_TO_PADDR (kvaddr : Nat) : Nat := (kvaddr + 2 ^ 32 - MIPS_KSEG0) % 2 ^ 32

/-- Modelled from the spec: conversion of a physical address to its kernel-virtual
address, a 32-bit addition of the window base. -/
def PADDR_TO_KVADDR (paddr : Nat) : Nat := (paddr + MIPS_KSEG0) % 2 ^ 32

/-- Modelled from the spec: the `VALID` control bit of a TLB `lo` word (MIPS value). -/
def TLBLO_VALID : Nat := 0x200

/-- Modelled from the spec: the `DIRTY` control bit of a TLB `lo` word (MIPS value). -/
def TLBLO_DIRTY : Nat := 0x400

/-- Modelled from the spec: the empty sentinel `INVALID_VPN(i)` of slot `i`
(MIPS value `(0x80000 + i) << 12`). -/
def TLBHI_INVALID (entryno : Nat) : Nat := ((0x80000 + entryno) <<< 12) % 2 ^ 32

/-- Modelled from the spec: the empty `entry_lo`, `0`. -/
def TLBLO_INVALID : Nat := 0

/-- Modelled from the spec: ELF permission bit `PF_R`. -/
def PF_R : Nat := 4

/-- Modelled from the spec: ELF permission bit `PF_W`. -/
def PF_W : Nat := 2

/-- Modelled from the spec: ELF permission bit `PF_X`. -/
def PF_X : Nat := 1

/-- Modelled from the spec: `WRITE_MODE` is declared in a header that is not part of
the sources; the spec derives `DIRTY` from "mode includes write", the bit `PF_W`. -/
def WRITE_MODE : Nat := PF_W

/-- Modelled from the spec: `CTRL_BIT_MASK` is declared in a header that is not part
of the sources; the spec names the control bits of `entry_lo` as `VALID` and `DIRTY`. -/
def CTRL_BIT_MASK : Nat := TLBLO_DIRTY ||| TLBLO_VALID

/-- Modelled from the spec: errno value of `ENOMEM` (kernel errno header). -/
def ENOMEM : Nat := 3

/-- Modelled from the spec: errno value of `EFAULT` (kernel errno header). -/
def EFAULT : Nat := 6

/-- Modelled from the spec: errno value of `EINVAL` (kernel errno header). -/
def EINVAL : Nat := 8

/-- Modelled from the spec: fault class `READ`. -/
def VM_FAULT_READ : Int := 0

/-- Modelled from the spec: fault class `WRITE`. -/
def VM_FAULT_WRITE : Int := 1

/-- Modelled from the spec: fault class `READONLY`. -/
def VM_FAULT_READONLY : Int := 2

/-- Modelled from the spec: `ONE_PAGE`, the page count passed to `alloc_kpages`. -/
def ONE_PAGE : Nat := 1

/-! ## Data model -/

/-- Region descriptor, `struct mem_region` without its `next` pointer (the list
structure is the `List` holding it). -/
structure mem_region where
  vbase : Nat
  size : Nat
  mode : Nat
  acc_mode : Nat
deriving DecidableEq, Repr

/-- Address space object, `struct addrspace`: the head of the region list. -/
structure addrspace where
  head : List mem_region
deriving DecidableEq, Repr

/-- Overflow-chain node of the hashed page table: the `hi`, `lo`, `as` fields of a
`struct HPT` reached through a `next` pointer. -/
structure PTE where
  hi : Nat
  lo : Nat
  as : Nat
deriving DecidableEq, Repr

/-- Primary slot of the hashed page table, `struct HPT`, with its overflow chain. -/
structure HPT where
  hi : Nat
  lo : Nat
  as : Nat
  next : List PTE
deriving DecidableEq, Repr

/-- Process descriptor as far as the VM code reads it: the address space pointer and
the object it points to (`none` when the process has no address space). -/
structure proc where
  p_addrspace : Option (Nat × addrspace)

/-- Global state of the VM subsystem together with the allocators, the byte memory
seen through kernel-virtual addresses, and the logs of observable calls. -/
structure VMState where
  hpt_size : Nat
  page_table : List HPT
  kpages : List Nat
  kheap : List Nat
  ram : Nat → Nat
  tlb : List (Nat × Nat)
  allocated : List Nat
  freed : List Nat

/-- Slot read `page_table[i]`. -/
def VMState.slot (st : VMState) (i : Nat) : HPT :=
  st.page_table.getD i ⟨0, 0, 0, []⟩

/-- Slot write `page_table[i] = s`. -/
def VMState.setSlot (st : VMState) (i : Nat) (s : HPT) : VMState :=
  { st with page_table := st.page_table.set i s }

/-! ## Kernel services used by the VM code -/

/-- The oracle of `kmalloc`: the next result, `0` for `NULL`. -/
def kmalloc (st : VMState) : Nat × VMState :=
  match st.kheap with
  | [] => (0, st)
  | p :: rest => (p, { st with kheap := rest })

/-- The oracle of `alloc_kpages`: the next kernel-virtual address, `0` for failure. -/
def alloc_kpages (st : VMState) (_npages : Nat) : Nat × VMState :=
  match st.kpages with
  | [] => (0, st)
  | kv :: rest =>
    if kv = 0 then (0, { st with kpages := rest })
    else (kv, { st with kpages := rest, allocated := kv :: st.allocated })

/-- Logged `free_kpages(addr)`. -/
def free_kpages (st : VMState) (addr : Nat) : VMState :=
  { st with freed := addr :: st.freed }

/-- Logged `tlb_random(entryhi, entrylo)`. -/
def tlb_random (st : VMState) (entryhi entrylo : Nat) : VMState :=
  { st with tlb := (entryhi, entrylo) :: st.tlb }

/-- Kernel `bzero(addr, len)` on the byte memory. -/
def bzero (st : VMState) (addr len : Nat) : VMState :=
  { st with ram := fun a => if addr ≤ a ∧ a < addr + len then 0 else st.ram a }

/-- Kernel `memmove(dst, src, len)` on the byte memory. -/
def memmove (st : VMState) (dst src len : Nat) : VMState :=
  { st with ram := fun a => if dst ≤ a ∧ a < dst + len then st.ram (src + (a - dst)) else st.ram a }

/-! ## vm.c -/

/-- Hash of `(as, vpn)`: `(((uint32_t)as) ^ (hi >> 12)) % hpt_size`. -/
def hpt_index (st : VMState) (as hi : Nat) : Nat :=
  (as ^^^ (hi >>> 12)) % st.hpt_size

/-- Insertion `page_table_insert(hi, lo, as)`: returns the error code and the state. -/
def page_table_insert (st : VMState) (hi lo as : Nat) : Nat × VMState :=
  let ind := hpt_index st as hi
  if (st.slot ind).lo = 0 then
    (0, st.setSlot ind ⟨hi, lo, as, []⟩)
  else if (st.slot ind).next = [] then
    let r := kmalloc st
    if r.1 = 0 then (ENOMEM, r.2)
    else (0, r.2.setSlot ind { r.2.slot ind with next := [⟨hi, lo, as⟩] })
  else
    let r := kmalloc st
    if r.1 = 0 then (ENOMEM, r.2)
    else (0, r.2.setSlot ind { r.2.slot ind with next := (r.2.slot ind).next ++ [⟨hi, lo, as⟩] })

/-- Bootstrap loop body: the empty sentinel of slot `count`. -/
def empty_slot (count : Nat) : HPT :=
  ⟨TLBHI_INVALID (count % 64), TLBLO_INVALID, 0, []⟩

/-- Bootstrap `vm_bootstrap()` for a machine with `ramsize` bytes of memory; when the
allocation of the table fails the table stays absent (empty). -/
def vm_bootstrap (st : VMState) (ramsize : Nat) : VMState :=
  let size := ramsize / PAGE_SIZE
  let r := kmalloc st
  if r.1 = 0 then { r.2 with hpt_size := size, page_table := [] }
  else { r.2 with hpt_size := size, page_table := (List.range size).map empty_slot }

/-- Region walk of `vm_fault`: the first region whose range holds `faultaddress`. -/
def find_region : List mem_region → Nat → Option mem_region
  | [], _ => none
  | curr :: rest, faultaddress =>
    let base := curr.vbase &&& PAGE_FRAME
    let top := (curr.vbase + curr.size * PAGE_SIZE) % 2 ^ 32
    if base ≤ faultaddress ∧ top > faultaddress then some curr
    else find_region rest faultaddress

/-- Collision-list walk of `vm_fault`: the first chain node with the faulting `hi`
and a non-zero `lo`. -/
def chain_find : List PTE → Nat → Option PTE
  | [], _ => none
  | curr_pte :: rest, faultaddress =>
    if curr_pte.hi = faultaddress ∧ curr_pte.lo ≠ 0 then some curr_pte
    else chain_find rest faultaddress

/-- Control bits derived from the region mode in `vm_fault`. -/
def fault_perms (mode : Nat) : Nat :=
  (if mode &&& WRITE_MODE = WRITE_MODE then TLBLO_DIRTY else 0) ||| TLBLO_VALID

/-- Demand-allocation tail of `vm_fault` (from `alloc_kpages` on). -/
def vm_fault_alloc (st : VMState) (as faultaddress perms : Nat) : Nat × VMState :=
  let r := alloc_kpages st ONE_PAGE
  if r.1 = 0 then (ENOMEM, r.2)
  else
    let page_addr := KVADDR_TO_PADDR r.1
    let st2 := bzero r.2 (PADDR_TO_KVADDR page_addr) (1 * PAGE_SIZE)
    let ins := page_table_insert st2 faultaddress (page_addr ||| perms) as
    if ins.1 ≠ 0 then (EFAULT, free_kpages ins.2 (PADDR_TO_KVADDR page_addr))
    else (0, tlb_random ins.2 faultaddress (page_addr ||| perms))

/-- Page-table part of `vm_fault` (from the hash computation on), for the address
space pointer `as` and the mode `mode` of the region found. -/
def vm_fault_lookup (st : VMState) (as faultaddress mode : Nat) : Nat × VMState :=
  let hi_ind := hpt_index st as faultaddress
  let perms := fault_perms mode
  let slot := st.slot hi_ind
  if slot.hi = faultaddress ∧ slot.lo ≠ 0 then
    (0, tlb_random st slot.hi (slot.lo ||| perms))
  else
    match (if slot.lo ≠ 0 ∧ slot.next ≠ [] then chain_find slot.next faultaddress else none) with
    | some curr_pte => (0, tlb_random st curr_pte.hi (curr_pte.lo ||| perms))
    | none => vm_fault_alloc st as faultaddress perms

/-- The TLB-miss handler `vm_fault(faulttype, faultaddress)` run for `curproc`. -/
def vm_fault (st : VMState) (curproc : Option proc) (faulttype : Int) (faultaddress : Nat) :
    Nat × VMState :=
  let faultaddress := faultaddress &&& PAGE_FRAME
  if faultaddress = 0 then (EFAULT, st)
  else if faultaddress ≥ USERSTACK then (EINVAL, st)
  else if faulttype = VM_FAULT_READONLY then (EFAULT, st)
  else if ¬ (faulttype = VM_FAULT_READ ∨ faulttype = VM_FAULT_WRITE) then (EINVAL, st)
  else
    match curproc with
    | none => (EFAULT, st)
    | some p =>
      match p.p_addrspace with
      | none => (EFAULT, st)
      | some (as, obj) =>
        match find_region obj.head faultaddress with
        | none => (EFAULT, st)
        | some curr => vm_fault_lookup st as faultaddress curr.mode

/-! ## addrspace.c -/

/-- Address-space creation `as_create()`: the pointer `kmalloc` gives (`0` when it
fails) and the fresh object with an empty region list. -/
def as_create (st : VMState) : (Nat × addrspace) × VMState :=
  let r := kmalloc st
  ((r.1, ⟨[]⟩), r.2)

/-- Region allocation `init_region(vbase, size, mode, acc_mode)`; `none` is `NULL`. -/
def init_region (st : VMState) (vbase size mode acc_mode : Nat) :
    Option mem_region × VMState :=
  let r := kmalloc st
  if r.1 = 0 then (none, r.2) else (some ⟨vbase, size, mode, acc_mode⟩, r.2)

/-- Linking `temp` behind the last region of a list (`as->head = temp` for the empty
list, else the walk to the node whose `next` is `NULL`). -/
def append_region : List mem_region → mem_region → List mem_region
  | [], temp => [temp]
  | curr_region :: rest, temp => curr_region :: append_region rest temp

/-- Region definition `as_define_region(as, vaddr, memsize, r, w, x)`: error code,
the address space object afterwards, and the state. -/
def as_define_region (st : VMState) (as : addrspace) (vaddr memsize : Nat)
    (readable writeable executable : Nat) : Nat × addrspace × VMState :=
  let memsize1 := (memsize + (vaddr &&& (0xffffffff ^^^ PAGE_FRAME))) % 2 ^ 32
  let vaddr1 := vaddr &&& PAGE_FRAME
  let memsize2 := ((memsize1 + PAGE_SIZE - 1) % 2 ^ 32) &&& PAGE_FRAME
  let npages := memsize2 / PAGE_SIZE
  let mode := readable ||| writeable ||| executable
  let t := init_region st vaddr1 npages mode mode
  match t.1 with
  | none => (ENOMEM, as, t.2)
  | some temp => (0, ⟨append_region as.head temp⟩, t.2)

/-- Load preparation `as_prepare_load(as)`. -/
def as_prepare_load (as : addrspace) : Nat × addrspace :=
  (0, ⟨as.head.map fun curr_region => { curr_region with mode := curr_region.mode ||| PF_W }⟩)

/-- Load completion `as_complete_load(as)`. -/
def as_complete_load (as : addrspace) : Nat × addrspace :=
  (0, ⟨as.head.map fun curr_region => { curr_region with mode := curr_region.acc_mode }⟩)

/-- Result of `as_define_stack`: error code, address space object, the value stored
through `stackptr` (`none` when nothing was stored), and the state. -/
structure StackResult where
  err : Nat
  as : addrspace
  stackptr : Option Nat
  st : VMState

/-- Stack definition `as_define_stack(as, stackptr)`; `none` is the dereference of the
`NULL` head of an empty region list. -/
def as_define_stack (st : VMState) (as : addrspace) : Option StackResult :=
  match as.head with
  | [] => none
  | _ :: _ =>
    let stack_base := (USERSPACETOP + 2 ^ 32 - (STACKPAGES * PAGE_SIZE) % 2 ^ 32) % 2 ^ 32
    let size := STACKPAGES
    let mode := PF_R ||| PF_W ||| PF_X
    let t := init_region st stack_base size mode mode
    match t.1 with
    | none => some ⟨ENOMEM, as, none, t.2⟩
    | some temp => some ⟨0, ⟨append_region as.head temp⟩, some USERSTACK, t.2⟩

/-- Kernel-virtual address handed to `free_kpages` for a page-table `lo` word. -/
def frame_kvaddr (lo : Nat) : Nat := PADDR_TO_KVADDR (lo &&& PAGE_FRAME)

/-- First loop of `as_destroy` on slot `i` whose primary fields are `hi lo owner` and
whose chain is the list: while the primary entry belongs to `as`, free its frame and
promote the next chain node, or reset the slot when there is none. Returns the slot,
the frames freed in call order, and `first_cleared`. -/
def destroy_head (as i : Nat) (hi lo owner : Nat) : List PTE → HPT × List Nat × Bool
  | [] =>
    if owner = as then (empty_slot i, [frame_kvaddr lo], true)
    else (⟨hi, lo, owner, []⟩, [], false)
  | new_head :: rest =>
    if owner = as then
      let r := destroy_head as i new_head.hi new_head.lo new_head.as rest
      (r.1, frame_kvaddr lo :: r.2.1, r.2.2)
    else (⟨hi, lo, owner, new_head :: rest⟩, [], false)

/-- Second loop of `as_destroy`: the walk over the collision list. After unlinking a
node of `as` the walk moves `prev` to the successor and steps past it without
looking at the successor's owner. Returns the chain and the frames freed in order. -/
def destroy_chain (as : Nat) : List PTE → List PTE × List Nat
  | [] => ([], [])
  | curr_pte :: rest =>
    if curr_pte.as = as then
      match rest with
      | [] => ([], [frame_kvaddr curr_pte.lo])
      | succ :: rest2 =>
        let r := destroy_chain as rest2
        (succ :: r.1, frame_kvaddr curr_pte.lo :: r.2)
    else
      let r := destroy_chain as rest
      (curr_pte :: r.1, r.2)

/-- Body of the `for` loop of `as_destroy` for slot `i`: the slot afterwards and the
frames freed in call order. -/
def destroy_slot (as i : Nat) (s : HPT) : HPT × List Nat :=
  if s.lo = 0 ∨ s.as = 0 then (s, [])
  else
    let h := destroy_head as i s.hi s.lo s.as s.next
    if h.2.2 then (h.1, h.2.1)
    else
      let c := destroy_chain as h.1.next
      ({ h.1 with next := c.1 }, h.2.1 ++ c.2)

/-- The `for` loop of `as_destroy` over the slots `0 .. n-1`. -/
def destroy_loop (as : Nat) : Nat → VMState → VMState
  | 0, st => st
  | n + 1, st =>
    let st1 := destroy_loop as n st
    let r := destroy_slot as n (st1.slot n)
    r.2.foldl free_kpages (st1.setSlot n r.1)

/-- Destruction `as_destroy(as)`: the region descriptors and the object are freed (the
object does not survive the call) and the page table is swept. -/
def as_destroy (st : VMState) (as : Nat) (_obj : addrspace) : VMState :=
  destroy_loop as st.hpt_size st

/-- Copy of the region list in `as_copy`: `acc` is the list of `newas` so far. The
flag is `false` when `init_region` fails; the list is then what `newas` holds at
that point. -/
def copy_regions (st : VMState) : List mem_region → List mem_region →
    (Bool × List mem_region) × VMState
  | [], acc => ((true, acc), st)
  | old_region :: rest, acc =>
    let t := init_region st old_region.vbase old_region.size old_region.mode old_region.acc_mode
    match t.1 with
    | none => ((false, acc), t.2)
    | some temp => copy_regions t.2 rest (append_region acc temp)

/-- Outcome of a kernel routine that may not return. -/
inductive Res (α : Type) where
  | ok (a : α)
  | null_deref
  | no_fuel
deriving DecidableEq, Repr

/-- Result of a run that returned, mapped through `f`. -/
def Res.map {α β : Type} (f : α → β) : Res α → Res β
  | Res.ok a => Res.ok (f a)
  | Res.null_deref => Res.null_deref
  | Res.no_fuel => Res.no_fuel

/-- Copy of one resident page in `as_copy`: the frame is requested and converted to a
physical address before the failure test, the page is copied, and the result of
`page_table_insert` is dropped. Returns `ENOMEM` for the early return, else `0`;
`null_deref` when the destination of `memmove` is the `NULL` address. -/
def copy_node (st : VMState) (newas hi lo : Nat) : Res (Nat × VMState) :=
  let r := alloc_kpages st 1
  let page_addr := KVADDR_TO_PADDR r.1
  if page_addr = 0 then Res.ok (ENOMEM, r.2)
  else if PADDR_TO_KVADDR page_addr = 0 then Res.null_deref
  else
    let st2 := memmove r.2 (PADDR_TO_KVADDR page_addr) (PADDR_TO_KVADDR (lo &&& PAGE_FRAME)) PAGE_SIZE
    let perms := (lo &&& CTRL_BIT_MASK) ||| TLBLO_VALID
    let ins := page_table_insert st2 (hi &&& PAGE_FRAME) (page_addr ||| perms) newas
    Res.ok (0, ins.2)

/-- Sequencing inside the loops of `as_copy`: a run that did not return stops there,
a non-zero code is the early `return`, otherwise the loop goes on from the state
reached. -/
def copy_then (x : Res (Nat × VMState)) (next : VMState → Res (Nat × VMState)) :
    Res (Nat × VMState) :=
  match x with
  | Res.ok r => if r.1 ≠ 0 then Res.ok r else next r.2
  | Res.null_deref => Res.null_deref
  | Res.no_fuel => Res.no_fuel

/-- Collision-list walk of `as_copy` for slot `i`: `curr` is the `k`-th node of the
chain as it is in the current state (insertions during the walk append to chains).
`no_fuel` when the fuel runs out. -/
def copy_chain (old newas i : Nat) : Nat → Nat → VMState → Res (Nat × VMState)
  | 0, _, _ => Res.no_fuel
  | fuel + 1, k, st =>
    match (st.slot i).next.get? k with
    | none => Res.ok (0, st)
    | some curr =>
      if curr.as = old then
        copy_then (copy_node st newas curr.hi curr.lo) (copy_chain old newas i fuel (k + 1))
      else copy_chain old newas i fuel (k + 1) st

/-- Fuel that the collision-list walk of slot `i` cannot use up: every step either
moves along the chain or consumes one `kmalloc` result. -/
def copy_fuel (st : VMState) (i : Nat) : Nat :=
  st.kheap.length + (st.slot i).next.length + 1

/-- Body of the `for` loop of `as_copy` for slot `i`. -/
def copy_slot (old newas i : Nat) (st : VMState) : Res (Nat × VMState) :=
  if (st.slot i).lo = 0 ∨ (st.slot i).as = 0 then Res.ok (0, st)
  else if (st.slot i).as = old then
    copy_then (copy_node st newas (st.slot i).hi (st.slot i).lo)
      (fun st1 => copy_chain old newas i (copy_fuel st1 i) 0 st1)
  else copy_chain old newas i (copy_fuel st i) 0 st

/-- The `for` loop of `as_copy` over the slots `0 .. n-1`. -/
def copy_loop (old newas : Nat) : Nat → VMState → Res (Nat × VMState)
  | 0, st => Res.ok (0, st)
  | n + 1, st => copy_then (copy_loop old newas n st) (copy_slot old newas n)

/-- Result of `as_copy`: the error code, the value stored through `ret` (`none` when
nothing was stored), the pointer `as_create` gave, the object it points to at the
return (`none` once destroyed, and `none` when the pointer is `NULL`: there is no
object then), and the state. -/
structure CopyResult where
  err : Nat
  ret : Option Nat
  newas : Nat
  newobj : Option addrspace
  st : VMState

/-- Fork copy `as_copy(old, ret)`. `null_deref` stands for a run that dereferences
`NULL` instead of returning: `newas` in the region loop when `as_create` failed, or
the destination of `memmove` after a failed frame allocation. The result of
`as_create` is not tested: when it is `NULL` and `old` has no regions the region loop
is not entered, `NULL` is stored through `ret` and the page-table loop runs. -/
def as_copy (st : VMState) (old : Nat) (oldobj : addrspace) : Res CopyResult :=
  let c := as_create st
  let newas := c.1.1
  if newas = 0 ∧ oldobj.head ≠ [] then Res.null_deref
  else
    let rg := copy_regions c.2 oldobj.head c.1.2.head
    if rg.1.1 = false then
      Res.ok ⟨ENOMEM, none, newas, none, as_destroy rg.2 newas ⟨rg.1.2⟩⟩
    else
      match copy_loop old newas rg.2.hpt_size rg.2 with
      | Res.ok r =>
        Res.ok ⟨r.1, some newas, newas, if newas = 0 then none else some ⟨rg.1.2⟩, r.2⟩
      | Res.null_deref => Res.null_deref
      | Res.no_fuel => Res.no_fuel

/-! ## Predicates used to state the properties -/

/-- Page of a byte address: the address masked to its page base. -/
def page_of (addr : Nat) : Nat := addr &&& PAGE_FRAME

/-- A region covers page `p` when `vbase <= p < vbase + npages * PAGE_SIZE`. -/
def covers (r : mem_region) (p : Nat) : Prop :=
  r.vbase ≤ p ∧ p < r.vbase + r.size * PAGE_SIZE

instance (r : mem_region) (p : Nat) : Decidable (covers r p) := by
  unfold covers; infer_instance

/-- Data-model invariant of a region descriptor: the base is a page-aligned 32-bit
address. -/
def region_aligned (r : mem_region) : Prop :=
  r.vbase % PAGE_SIZE = 0 ∧ r.vbase < 2 ^ 32

instance (r : mem_region) : Decidable (region_aligned r) := by
  unfold region_aligned; infer_instance

/-- Data-model invariant of a region descriptor: page-aligned base and a range that
ends at or below `USERSTACK`. -/
def region_wf (r : mem_region) : Prop :=
  r.vbase % PAGE_SIZE = 0 ∧ r.vbase + r.size * PAGE_SIZE ≤ USERSTACK

instance (r : mem_region) : Decidable (region_wf r) := by
  unfold region_wf; infer_instance

/-- Node sequence of a bucket: the primary entry when it is occupied (`lo` non-zero),
followed by the overflow chain. -/
def HPT.nodes (s : HPT) : List PTE :=
  (if s.lo = 0 then [] else [⟨s.hi, s.lo, s.as⟩]) ++ s.next

/-- Shape of the table: `hpt_size` slots, at least one. -/
def table_ok (st : VMState) : Prop :=
  st.page_table.length = st.hpt_size ∧ 0 < st.hpt_size

instance (st : VMState) : Decidable (table_ok st) := by
  unfold table_ok; infer_instance

/-- A bucket whose primary entry is empty has no overflow chain. -/
def bucket_ok (s : HPT) : Prop := s.lo = 0 → s.next = []

instance (s : HPT) : Decidable (bucket_ok s) := by
  unfold bucket_ok; infer_instance

/-- Control bits the spec derives from a region mode: `VALID` always, `DIRTY` exactly
when the mode includes write permission. -/
def derived_ctrl (mode : Nat) : Nat :=
  if mode &&& PF_W = PF_W then TLBLO_DIRTY ||| TLBLO_VALID else TLBLO_VALID

/-- State of `vm_fault` after a successful `alloc_kpages` and the zero fill. -/
def after_alloc_zero (st : VMState) (kv : Nat) (rest : List Nat) : VMState :=
  bzero { st with kpages := rest, allocated := kv :: st.allocated }
    (PADDR_TO_KVADDR (KVADDR_TO_PADDR kv)) (1 * PAGE_SIZE)

/-- The page-table lookup of `vm_fault` in one bucket, for the page `v`: the primary
entry when it carries `v` and a non-zero `lo`; else, when the primary entry is
occupied and has a chain, the first chain node that does. -/
def bucket_lookup (s : HPT) (v : Nat) : Option PTE :=
  if s.hi = v ∧ s.lo ≠ 0 then some ⟨s.hi, s.lo, s.as⟩
  else if s.lo ≠ 0 ∧ s.next ≠ [] then chain_find s.next v else none

/-- The page table of `b` extends that of `a`: same size, and every bucket occupied in
`a` has in `b` the same primary entry and a chain that starts with the chain of `a`.
This is how the table evolves as long as nothing is removed from it. -/
def hpt_extends (a b : VMState) : Prop :=
  b.hpt_size = a.hpt_size ∧ b.page_table.length = a.page_table.length ∧
  ∀ i, (a.slot i).lo ≠ 0 →
    (b.slot i).hi = (a.slot i).hi ∧ (b.slot i).lo = (a.slot i).lo ∧
    (b.slot i).as = (a.slot i).as ∧ ∃ more, (b.slot i).next = (a.slot i).next ++ more

/-! ## Concrete states -/

/-- State before bootstrap with the given allocator oracles and all-zero memory. -/
def init_state (kpages kheap : List Nat) : VMState :=
  ⟨0, [], kpages, kheap, fun _ => 0, [], [], []⟩

/-- Booted machine with 512 KiB of memory (`hpt_size = 128`); the first `kmalloc`
result is the table itself. -/
def boot128 (kpages kheap : List Nat) : VMState :=
  vm_bootstrap (init_state kpages (0x80050000 :: kheap)) (128 * 4096)

/-- Address space pointer of process A. -/
def asA : Nat := 0x80040010

/-- Address space pointer of process B. -/
def asB : Nat := 0x80040020

/-- Address space pointer whose low seven bits equal those of `asB`. -/
def asC : Nat := 0x800400a0

/-- Regions of A: one read/execute page at `0x00400000`, one read/write page at
`0x00800000`. -/
def objA : addrspace := ⟨[⟨0x00400000, 1, 5, 5⟩, ⟨0x00800000, 1, 6, 6⟩]⟩

/-- Regions of B: 256 read/execute pages at `0x00400000`. -/
def objB : addrspace := ⟨[⟨0x00400000, 0x100, 5, 5⟩]⟩

/-- Regions of C: one read/write page at `0x00430000`. -/
def objC : addrspace := ⟨[⟨0x00430000, 1, 6, 6⟩]⟩

/-- Process descriptor with the given address space. -/
def proc_of (as : Nat) (obj : addrspace) : Option proc := some ⟨some (as, obj)⟩

/-- After boot, B has faulted on page `0x00430000` (bucket 16). -/
def stB (kpages kheap : List Nat) : VMState :=
  (vm_fault (boot128 (0x80100000 :: kpages) kheap) (proc_of asB objB) VM_FAULT_READ 0x00430abc).2

/-- After `stB`, A has faulted on pages `0x00400000` and `0x00800000`, both in
bucket 16 behind the entry of B. -/
def stBAA (kpages kheap : List Nat) : VMState :=
  (vm_fault
    (vm_fault (stB (0x80101000 :: 0x80102000 :: kpages) (0x80060000 :: 0x80060010 :: kheap))
      (proc_of asA objA) VM_FAULT_READ 0x00400abc).2
    (proc_of asA objA) VM_FAULT_WRITE 0x00800abc).2

/-- After boot, A has faulted on page `0x00400000` and then B on page `0x00430000`;
both nodes are in bucket 16, the node of B chained behind the entry of A. -/
def stAB : VMState :=
  (vm_fault
    (vm_fault (boot128 [0x80100000, 0x80101000] [0x80060000]) (proc_of asA objA)
      VM_FAULT_READ 0x00400abc).2
    (proc_of asB objB) VM_FAULT_READ 0x00430abc).2

/-- Nodes of the whole table owned by `as`. -/
def owned_nodes (st : VMState) (as : Nat) : List PTE :=
  (st.page_table.map fun s => s.nodes.filter fun n => n.as = as).flatten

/-- Regions of B after it has defined a second region, one read/write page at
`0x00800000`. -/
def objB2 : addrspace := ⟨[⟨0x00400000, 0x100, 5, 5⟩, ⟨0x00800000, 1, 6, 6⟩]⟩

/-- After `stBAA`, B has also faulted on page `0x00800000` (bucket 32) and A has been
destroyed; the second chain node of A is still in bucket 16. -/
def stDestroyedA (kpages kheap : List Nat) : VMState :=
  as_destroy
    (vm_fault (stBAA (0x80103000 :: kpages) kheap) (proc_of asB objB2)
      VM_FAULT_WRITE 0x00800abc).2
    asA objA

/-- After boot, A has faulted on pages `0x00400000` and `0x00800000`: bucket 16 holds
nodes of A only, one in the primary entry and one in the chain. -/
def stAA : VMState :=
  (vm_fault
    (vm_fault (boot128 [0x80100000, 0x80101000] [0x80060000]) (proc_of asA objA)
      VM_FAULT_READ 0x00400abc).2
    (proc_of asA objA) VM_FAULT_WRITE 0x00800abc).2

/-- Structural invariant of the page table: a bucket with an empty primary entry has
no chain, every chain node is occupied, and every node of bucket `i` hashes to `i`. -/
def hpt_inv (st : VMState) : Prop :=
  ∀ i, bucket_ok (st.slot i) ∧ (∀ n ∈ (st.slot i).next, n.lo ≠ 0) ∧
    ∀ n ∈ (st.slot i).nodes, hpt_index st n.as n.hi = i

/-- States the page table goes through: the state `vm_bootstrap` produces, and from
there any sequence of insertions of occupied tuples, faults, copies that return and
destructions. Between the operations the rest of the kernel may change everything
but the table (`env`): the allocator oracles, the memory, the logs. -/
inductive Reach : VMState → Prop where
  | boot (st0 : VMState) (ramsize : Nat) : Reach (vm_bootstrap st0 ramsize)
  | env (st st2 : VMState) : Reach st → st2.page_table = st.page_table →
      st2.hpt_size = st.hpt_size → Reach st2
  | insert (st : VMState) (hi lo as : Nat) : Reach st → lo ≠ 0 →
      Reach (page_table_insert st hi lo as).2
  | fault (st : VMState) (curproc : Option proc) (faulttype : Int) (faultaddress : Nat) :
      Reach st → Reach (vm_fault st curproc faulttype faultaddress).2
  | copy (st : VMState) (old : Nat) (oldobj : addrspace) (r : CopyResult) :
      Reach st → as_copy st old oldobj = Res.ok r → Reach r.st
  | destroy (st : VMState) (as : Nat) (obj : addrspace) :
      Reach st → Reach (as_destroy st as obj)

/-! ## Lemmas -/

theorem PAGE_FRAME_testBit (i : Nat) : PAGE_FRAME.testBit i = (decide (12 ≤ i) && decide (i < 32)) := by
  have h : PAGE_FRAME = (2 ^ 20 - 1) <<< 12 := by decide
  rw [h, Nat.testBit_shiftLeft, Nat.testBit_two_pow_sub_one]
  by_cases h12 : 12 ≤ i
  · by_cases h32 : i < 32
    · have : i - 12 < 20 := by omega
      simp [h12, h32, this]
    · have : ¬ (i - 12 < 20) := by omega
      simp [h12, h32, this]
  · simp [h12]

theorem land_PAGE_FRAME (x : Nat) (h : x < 2 ^ 32) :
    x &&& PAGE_FRAME = x / PAGE_SIZE * PAGE_SIZE := by
  apply Nat.eq_of_testBit_eq
  intro i
  have hP : PAGE_SIZE = 2 ^ 12 := by decide
  rw [Nat.testBit_and, PAGE_FRAME_testBit, hP, ← Nat.shiftRight_eq_div_pow, ← Nat.shiftLeft_eq,
    Nat.testBit_shiftLeft, Nat.testBit_shiftRight]
  by_cases h12 : 12 ≤ i
  · have h3 : 12 + (i - 12) = i := by omega
    rw [h3]
    by_cases h32 : i < 32
    · simp [h12, h32]
    · have hx : x.testBit i = false := by
        apply Nat.testBit_eq_false_of_lt
        calc x < 2 ^ 32 := h
          _ ≤ 2 ^ i := Nat.pow_le_pow_right (by decide) (by omega)
      simp [hx]
  · simp [h12]

theorem land_low_bits (x : Nat) : x &&& (0xffffffff ^^^ PAGE_FRAME) = x % PAGE_SIZE := by
  have h : (0xffffffff ^^^ PAGE_FRAME) = 2 ^ 12 - 1 := by decide
  have hP : PAGE_SIZE = 2 ^ 12 := by decide
  rw [h, hP, Nat.and_pow_two_sub_one_eq_mod]

theorem region_base_aligned (r : mem_region) (h : region_aligned r) :
    r.vbase &&& PAGE_FRAME = r.vbase := by
  obtain ⟨ha, hb⟩ := h
  rw [land_PAGE_FRAME r.vbase hb]
  have hP : PAGE_SIZE = 4096 := rfl
  rw [hP] at ha ⊢
  omega

theorem find_region_none (regions : List mem_region) (p : Nat)
    (halign : ∀ r ∈ regions, region_aligned r)
    (hnone : ∀ r ∈ regions, ¬ covers r p) :
    find_region regions p = none := by
  induction regions with
  | nil => rfl
  | cons r rest ih =>
    have hr := hnone r (List.mem_cons_self r rest)
    have ha := halign r (List.mem_cons_self r rest)
    have hmod : (r.vbase + r.size * PAGE_SIZE) % 2 ^ 32 ≤ r.vbase + r.size * PAGE_SIZE :=
      Nat.mod_le _ _
    have hcode : ¬ (r.vbase &&& PAGE_FRAME ≤ p ∧ (r.vbase + r.size * PAGE_SIZE) % 2 ^ 32 > p) := by
      rw [region_base_aligned r ha]
      intro hc
      exact hr ⟨hc.1, Nat.lt_of_lt_of_le hc.2 hmod⟩
    have ih2 := ih (fun x hx => halign x (List.mem_cons_of_mem r hx))
      (fun x hx => hnone x (List.mem_cons_of_mem r hx))
    simp only [find_region, hcode, if_false, ih2]

theorem append_region_eq (regions : List mem_region) (temp : mem_region) :
    append_region regions temp = regions ++ [temp] := by
  induction regions with
  | nil => rfl
  | cons r rest ih => simp [append_region, ih]

theorem slot_setSlot_same (st : VMState) (i : Nat) (s : HPT) (h : i < st.page_table.length) :
    (st.setSlot i s).slot i = s := by
  simp [VMState.slot, VMState.setSlot, List.getElem?_set, h]

theorem slot_setSlot_other (st : VMState) (i j : Nat) (s : HPT) (h : j ≠ i) :
    (st.setSlot i s).slot j = st.slot j := by
  simp [VMState.slot, VMState.setSlot, List.getElem?_set_ne (Ne.symm h)]

theorem hpt_index_lt (st : VMState) (as hi : Nat) (h : table_ok st) :
    hpt_index st as hi < st.page_table.length := by
  unfold hpt_index
  rw [h.1]
  exact Nat.mod_lt _ h.2

theorem lor_ne_zero_of_testBit (x y i : Nat) (h : y.testBit i = true) : x ||| y ≠ 0 := by
  intro h0
  have h1 : (x ||| y).testBit i = true := by
    rw [Nat.testBit_or, h, Bool.or_true]
  rw [h0, Nat.zero_testBit] at h1
  exact Bool.false_ne_true h1

theorem fault_perms_valid (mode : Nat) : (fault_perms mode).testBit 9 = true := by
  unfold fault_perms
  split <;> decide

/-- Effect of a successful insertion on the table. -/
theorem page_table_insert_success (st : VMState) (hi lo as : Nat)
    (htab : table_ok st) (hlo : lo ≠ 0)
    (hb : bucket_ok (st.slot (hpt_index st as hi)))
    (hkm : (st.slot (hpt_index st as hi)).lo ≠ 0 →
      ∃ p rest, st.kheap = p :: rest ∧ p ≠ 0) :
    (page_table_insert st hi lo as).1 = 0 ∧
    ((page_table_insert st hi lo as).2.slot (hpt_index st as hi)).nodes
      = (st.slot (hpt_index st as hi)).nodes ++ [⟨hi, lo, as⟩] ∧
    (∀ j, j ≠ hpt_index st as hi → (page_table_insert st hi lo as).2.slot j = st.slot j) ∧
    (page_table_insert st hi lo as).2.hpt_size = st.hpt_size ∧
    (page_table_insert st hi lo as).2.page_table.length = st.page_table.length ∧
    (page_table_insert st hi lo as).2.kpages = st.kpages ∧
    (page_table_insert st hi lo as).2.ram = st.ram ∧
    (page_table_insert st hi lo as).2.tlb = st.tlb ∧
    (page_table_insert st hi lo as).2.allocated = st.allocated ∧
    (page_table_insert st hi lo as).2.freed = st.freed := by
  have hlt := hpt_index_lt st as hi htab
  by_cases h0 : (st.slot (hpt_index st as hi)).lo = 0
  · have hn := hb h0
    have e : page_table_insert st hi lo as
        = (0, st.setSlot (hpt_index st as hi) ⟨hi, lo, as, []⟩) := by
      simp [page_table_insert, h0]
    rw [e]
    refine ⟨rfl, ?_, ?_, rfl, ?_, rfl, rfl, rfl, rfl, rfl⟩
    · show ((VMState.setSlot _ _ _).slot _).nodes = _
      rw [slot_setSlot_same st _ _ hlt]
      simp [HPT.nodes, h0, hn, hlo]
    · intro j hj
      exact slot_setSlot_other st _ j _ hj
    · simp [VMState.setSlot]
  · obtain ⟨p, rest, hk, hp⟩ := hkm h0
    have hkm1 : (kmalloc st).1 = p := by simp [kmalloc, hk]
    have hkm2 : (kmalloc st).2 = { st with kheap := rest } := by simp [kmalloc, hk]
    have hs : ({ st with kheap := rest } : VMState).slot (hpt_index st as hi)
        = st.slot (hpt_index st as hi) := rfl
    have e : page_table_insert st hi lo as
        = (0, ({ st with kheap := rest } : VMState).setSlot (hpt_index st as hi)
            { st.slot (hpt_index st as hi) with
              next := (st.slot (hpt_index st as hi)).next ++ [⟨hi, lo, as⟩] }) := by
      by_cases hnx : (st.slot (hpt_index st as hi)).next = []
      · simp [page_table_insert, h0, hnx, hkm1, hkm2, hp, hs]
      · simp [page_table_insert, h0, hnx, hkm1, hkm2, hp, hs]
    rw [e]
    refine ⟨rfl, ?_, ?_, rfl, ?_, rfl, rfl, rfl, rfl, rfl⟩
    · show ((VMState.setSlot _ _ _).slot _).nodes = _
      rw [slot_setSlot_same ({ st with kheap := rest } : VMState) _ _ hlt]
      simp [HPT.nodes, h0]
    · intro j hj
      exact slot_setSlot_other _ _ j _ hj
    · simp [VMState.setSlot]

theorem region_wf_code_range (r : mem_region) (h : region_wf r) :
    r.vbase &&& PAGE_FRAME = r.vbase ∧
    (r.vbase + r.size * PAGE_SIZE) % 2 ^ 32 = r.vbase + r.size * PAGE_SIZE := by
  obtain ⟨ha, hb⟩ := h
  have hU : USERSTACK = 0x80000000 := rfl
  rw [hU] at hb
  have hlt : r.vbase < 2 ^ 32 := by omega
  exact ⟨region_base_aligned r ⟨ha, hlt⟩, Nat.mod_eq_of_lt (by omega)⟩

theorem find_region_some (regions : List mem_region) (p : Nat) (R : mem_region)
    (hwf : ∀ r ∈ regions, region_wf r) (hR : R ∈ regions) (hcov : covers R p) :
    ∃ r, find_region regions p = some r ∧ r ∈ regions ∧ covers r p := by
  induction regions with
  | nil => cases hR
  | cons r rest ih =>
    obtain ⟨hb, ht⟩ := region_wf_code_range r (hwf r (List.mem_cons_self r rest))
    by_cases hc : covers r p
    · refine ⟨r, ?_, List.mem_cons_self r rest, hc⟩
      have hc2 : r.vbase ≤ p ∧ p < r.vbase + r.size * PAGE_SIZE := hc
      simp only [find_region, hb, ht, gt_iff_lt, hc2, and_self, if_true]
    · have hR2 : R ∈ rest := by
        rcases List.mem_cons.mp hR with h | h
        · exact absurd (h ▸ hcov) hc
        · exact h
      obtain ⟨r2, h1, h2, h3⟩ := ih (fun x hx => hwf x (List.mem_cons_of_mem r hx)) hR2
      refine ⟨r2, ?_, List.mem_cons_of_mem r h2, h3⟩
      have hc2 : ¬ (r.vbase ≤ p ∧ p < r.vbase + r.size * PAGE_SIZE) := hc
      simp only [find_region, hb, ht, gt_iff_lt, hc2, if_false, h1]

theorem vm_fault_valid_request (st : VMState) (as : Nat) (obj : addrspace)
    (faulttype : Int) (faultaddress : Nat) (r : mem_region)
    (hty : faulttype = VM_FAULT_READ ∨ faulttype = VM_FAULT_WRITE)
    (hpos : 0 < page_of faultaddress) (hlt : page_of faultaddress < USERSTACK)
    (hf : find_region obj.head (page_of faultaddress) = some r) :
    vm_fault st (some ⟨some (as, obj)⟩) faulttype faultaddress
      = vm_fault_lookup st as (page_of faultaddress) r.mode := by
  unfold page_of at hpos hlt hf ⊢
  have h0 : ¬ (faultaddress &&& PAGE_FRAME = 0) := by omega
  have hro : faulttype ≠ VM_FAULT_READONLY := by
    rcases hty with h | h <;> rw [h] <;> decide
  simp [vm_fault, h0, Nat.not_le.mpr hlt, hro, hty, hf]

theorem chain_find_none (chain : List PTE) (v : Nat) (h : ∀ n ∈ chain, n.hi ≠ v) :
    chain_find chain v = none := by
  induction chain with
  | nil => rfl
  | cons n rest ih =>
    have h1 := h n (List.mem_cons_self n rest)
    simp [chain_find, h1, ih (fun x hx => h x (List.mem_cons_of_mem n hx))]

theorem vm_fault_lookup_miss (st : VMState) (as v mode : Nat)
    (hmiss : ∀ n ∈ (st.slot (hpt_index st as v)).nodes, n.hi ≠ v) :
    vm_fault_lookup st as v mode = vm_fault_alloc st as v (fault_perms mode) := by
  have hchain : chain_find (st.slot (hpt_index st as v)).next v = none :=
    chain_find_none _ _ (fun n hn => hmiss n (by simp [HPT.nodes, hn]))
  have hprim : ¬ ((st.slot (hpt_index st as v)).hi = v ∧ (st.slot (hpt_index st as v)).lo ≠ 0) := by
    intro hc
    exact hmiss ⟨(st.slot (hpt_index st as v)).hi, (st.slot (hpt_index st as v)).lo,
      (st.slot (hpt_index st as v)).as⟩ (by simp [HPT.nodes, hc.2]) hc.1
  unfold vm_fault_lookup
  simp only [hprim, if_false, hchain, ite_self]

theorem vm_fault_alloc_unfold (st : VMState) (as v perms kv : Nat) (rest : List Nat)
    (hkp : st.kpages = kv :: rest) (hkv : kv ≠ 0) :
    vm_fault_alloc st as v perms =
      if (page_table_insert (after_alloc_zero st kv rest) v (KVADDR_TO_PADDR kv ||| perms) as).1 ≠ 0
      then (EFAULT, free_kpages
        (page_table_insert (after_alloc_zero st kv rest) v (KVADDR_TO_PADDR kv ||| perms) as).2
        (PADDR_TO_KVADDR (KVADDR_TO_PADDR kv)))
      else (0, tlb_random
        (page_table_insert (after_alloc_zero st kv rest) v (KVADDR_TO_PADDR kv ||| perms) as).2
        v (KVADDR_TO_PADDR kv ||| perms)) := by
  have h1 : alloc_kpages st ONE_PAGE
      = (kv, { st with kpages := rest, allocated := kv :: st.allocated }) := by
    simp [alloc_kpages, hkp, hkv]
  unfold vm_fault_alloc
  simp only [h1, hkv, if_false]
  rfl

theorem vm_fault_alloc_success (st : VMState) (as v perms kv : Nat) (rest : List Nat)
    (htab : table_ok st) (hperm : perms.testBit 9 = true)
    (hb : bucket_ok (st.slot (hpt_index st as v)))
    (hkp : st.kpages = kv :: rest) (hkv : kv ≠ 0)
    (hkm : (st.slot (hpt_index st as v)).lo ≠ 0 → ∃ p rest2, st.kheap = p :: rest2 ∧ p ≠ 0) :
    (vm_fault_alloc st as v perms).1 = 0 ∧
    (vm_fault_alloc st as v perms).2.kpages = rest ∧
    (vm_fault_alloc st as v perms).2.allocated = kv :: st.allocated ∧
    (vm_fault_alloc st as v perms).2.freed = st.freed ∧
    (∀ a, PADDR_TO_KVADDR (KVADDR_TO_PADDR kv) ≤ a →
      a < PADDR_TO_KVADDR (KVADDR_TO_PADDR kv) + PAGE_SIZE →
      (vm_fault_alloc st as v perms).2.ram a = 0) ∧
    ((vm_fault_alloc st as v perms).2.slot (hpt_index st as v)).nodes
      = (st.slot (hpt_index st as v)).nodes ++ [⟨v, KVADDR_TO_PADDR kv ||| perms, as⟩] ∧
    (∀ j, j ≠ hpt_index st as v → (vm_fault_alloc st as v perms).2.slot j = st.slot j) ∧
    (vm_fault_alloc st as v perms).2.tlb = (v, KVADDR_TO_PADDR kv ||| perms) :: st.tlb ∧
    (vm_fault_alloc st as v perms).2.hpt_size = st.hpt_size ∧
    (vm_fault_alloc st as v perms).2.page_table.length = st.page_table.length := by
  have hlo : KVADDR_TO_PADDR kv ||| perms ≠ 0 := lor_ne_zero_of_testBit _ _ 9 hperm
  obtain ⟨i1, i2, i3, i4, i5, i6, i7, i8, i9, i10⟩ :=
    page_table_insert_success (after_alloc_zero st kv rest) v (KVADDR_TO_PADDR kv ||| perms) as
      htab hlo hb hkm
  rw [vm_fault_alloc_unfold st as v perms kv rest hkp hkv]
  simp only [i1, ne_eq, not_true_eq_false, if_false]
  refine ⟨trivial, i6, i9, i10, ?_, i2, i3, ?_, i4, i5⟩
  · intro a ha1 ha2
    show (page_table_insert (after_alloc_zero st kv rest) v (KVADDR_TO_PADDR kv ||| perms) as).2.ram a = 0
    rw [i7]
    have hP : (1 * PAGE_SIZE) = PAGE_SIZE := Nat.one_mul _
    simp [after_alloc_zero, bzero, ha1, hP, ha2]
  · show (v, KVADDR_TO_PADDR kv ||| perms) :: _ = _
    rw [i8]
    rfl

theorem fault_perms_eq_derived_ctrl (mode : Nat) : fault_perms mode = derived_ctrl mode := by
  unfold fault_perms derived_ctrl WRITE_MODE
  split <;> rfl

theorem derived_ctrl_bits (mode : Nat) :
    derived_ctrl mode &&& TLBLO_VALID = TLBLO_VALID ∧
    (derived_ctrl mode &&& TLBLO_DIRTY = TLBLO_DIRTY ↔ mode &&& PF_W = PF_W) := by
  unfold derived_ctrl
  split
  · rename_i h
    exact ⟨by decide, fun _ => h, fun _ => by decide⟩
  · rename_i h
    exact ⟨by decide, fun hc => absurd hc (by decide), fun hc => absurd hc h⟩

theorem kseg0_roundtrip (kv : Nat) (h : kv < 2 ^ 32) :
    PADDR_TO_KVADDR (KVADDR_TO_PADDR kv) = kv := by
  unfold PADDR_TO_KVADDR KVADDR_TO_PADDR MIPS_KSEG0
  omega

/-- The lookup of `vm_fault` in one bucket: the primary entry when it carries the
faulting `hi` and a non-zero `lo`, else the first such node of the chain (walked when
the primary entry is occupied and has a chain). -/
theorem vm_fault_lookup_eq (st : VMState) (as v mode : Nat) :
    vm_fault_lookup st as v mode =
      match bucket_lookup (st.slot (hpt_index st as v)) v with
      | some e => (0, tlb_random st e.hi (e.lo ||| fault_perms mode))
      | none => vm_fault_alloc st as v (fault_perms mode) := by
  unfold vm_fault_lookup bucket_lookup
  by_cases h : (st.slot (hpt_index st as v)).hi = v ∧ (st.slot (hpt_index st as v)).lo ≠ 0
  · rw [if_pos h, if_pos h]
  · rw [if_neg h, if_neg h]

theorem chain_find_some (chain : List PTE) (v : Nat) (e : PTE)
    (h : chain_find chain v = some e) : e ∈ chain ∧ e.hi = v ∧ e.lo ≠ 0 := by
  induction chain with
  | nil => simp [chain_find] at h
  | cons n rest ih =>
    unfold chain_find at h
    by_cases hc : n.hi = v ∧ n.lo ≠ 0
    · rw [if_pos hc] at h
      cases h
      exact ⟨List.mem_cons_self _ _, hc.1, hc.2⟩
    · rw [if_neg hc] at h
      obtain ⟨h1, h2⟩ := ih h
      exact ⟨List.mem_cons_of_mem _ h1, h2⟩

theorem bucket_lookup_some (s : HPT) (v : Nat) (e : PTE) (h : bucket_lookup s v = some e) :
    e ∈ s.nodes ∧ e.hi = v ∧ e.lo ≠ 0 := by
  unfold bucket_lookup at h
  by_cases hp : s.hi = v ∧ s.lo ≠ 0
  · rw [if_pos hp] at h
    cases h
    exact ⟨by simp [HPT.nodes, hp.2], hp.1, hp.2⟩
  · rw [if_neg hp] at h
    by_cases hw : s.lo ≠ 0 ∧ s.next ≠ []
    · rw [if_pos hw] at h
      obtain ⟨h1, h2⟩ := chain_find_some _ _ _ h
      exact ⟨by simp [HPT.nodes, h1], h2⟩
    · rw [if_neg hw] at h
      cases h

theorem chain_find_append_new (chain : List PTE) (v lo as : Nat) (hlo : lo ≠ 0)
    (h : chain_find chain v = none) :
    chain_find (chain ++ [⟨v, lo, as⟩]) v = some ⟨v, lo, as⟩ := by
  induction chain with
  | nil => simp [chain_find, hlo]
  | cons n rest ih =>
    unfold chain_find at h
    by_cases hc : n.hi = v ∧ n.lo ≠ 0
    · rw [if_pos hc] at h
      cases h
    · rw [if_neg hc] at h
      simp only [List.cons_append, chain_find]
      rw [if_neg hc]
      exact ih h

/-- Slot written by an insertion that returns `0`. -/
theorem page_table_insert_slot (st : VMState) (hi lo as : Nat) (htab : table_ok st)
    (h0 : (page_table_insert st hi lo as).1 = 0) :
    (page_table_insert st hi lo as).2.slot (hpt_index st as hi)
      = (if (st.slot (hpt_index st as hi)).lo = 0 then ⟨hi, lo, as, []⟩
         else { st.slot (hpt_index st as hi) with
                next := (st.slot (hpt_index st as hi)).next ++ [⟨hi, lo, as⟩] }) ∧
    (page_table_insert st hi lo as).2.hpt_size = st.hpt_size := by
  have hlt := hpt_index_lt st as hi htab
  by_cases hz : (st.slot (hpt_index st as hi)).lo = 0
  · have e : page_table_insert st hi lo as
        = (0, st.setSlot (hpt_index st as hi) ⟨hi, lo, as, []⟩) := by
      simp [page_table_insert, hz]
    rw [e]
    simp only [hz, if_true]
    exact ⟨slot_setSlot_same st _ _ hlt, rfl⟩
  · simp only [hz, if_false]
    have hk : (kmalloc st).1 ≠ 0 := by
      intro hk
      have hE : (page_table_insert st hi lo as).1 = ENOMEM := by
        by_cases hnx : (st.slot (hpt_index st as hi)).next = [] <;>
          simp [page_table_insert, hz, hnx, hk]
      rw [hE] at h0
      exact absurd h0 (by decide)
    have hs : (kmalloc st).2.slot (hpt_index st as hi) = st.slot (hpt_index st as hi) := by
      unfold kmalloc; split <;> rfl
    have hl : hpt_index st as hi < (kmalloc st).2.page_table.length := by
      have : (kmalloc st).2.page_table = st.page_table := by unfold kmalloc; split <;> rfl
      rw [this]; exact hlt
    have hsz : (kmalloc st).2.hpt_size = st.hpt_size := by unfold kmalloc; split <;> rfl
    have e : page_table_insert st hi lo as
        = (0, (kmalloc st).2.setSlot (hpt_index st as hi)
            { st.slot (hpt_index st as hi) with
              next := (st.slot (hpt_index st as hi)).next ++ [⟨hi, lo, as⟩] }) := by
      by_cases hnx : (st.slot (hpt_index st as hi)).next = []
      · simp [page_table_insert, hz, hnx, hk, hs]
      · simp [page_table_insert, hz, hnx, hk, hs]
    rw [e]
    exact ⟨slot_setSlot_same (kmalloc st).2 _ _ hl, hsz⟩

theorem alloc_kpages_table (st : VMState) (n : Nat) :
    (alloc_kpages st n).2.page_table = st.page_table ∧
    (alloc_kpages st n).2.hpt_size = st.hpt_size := by
  unfold alloc_kpages
  split
  · exact ⟨rfl, rfl⟩
  · split <;> exact ⟨rfl, rfl⟩

theorem bzero_table (st : VMState) (addr len : Nat) :
    (bzero st addr len).page_table = st.page_table ∧
    (bzero st addr len).hpt_size = st.hpt_size := ⟨rfl, rfl⟩

theorem vm_fault_zero_inv (st : VMState) (curproc : Option proc) (faulttype : Int)
    (faultaddress : Nat) (h : (vm_fault st curproc faulttype faultaddress).1 = 0) :
    ∃ as obj r, curproc = some ⟨some (as, obj)⟩ ∧
      0 < page_of faultaddress ∧ page_of faultaddress < USERSTACK ∧
      (faulttype = VM_FAULT_READ ∨ faulttype = VM_FAULT_WRITE) ∧
      find_region obj.head (page_of faultaddress) = some r := by
  unfold vm_fault at h
  unfold page_of
  have hE1 : EFAULT ≠ 0 := by decide
  have hE2 : EINVAL ≠ 0 := by decide
  by_cases h0 : faultaddress &&& PAGE_FRAME = 0
  · simp [h0, hE1] at h
  by_cases hs : faultaddress &&& PAGE_FRAME ≥ USERSTACK
  · simp [h0, hs, hE2] at h
  by_cases hro : faulttype = VM_FAULT_READONLY
  · simp [h0, hs, hro, hE1] at h
  by_cases hty : faulttype = VM_FAULT_READ ∨ faulttype = VM_FAULT_WRITE
  · simp only [h0, hs, hro, hty, if_false, not_true_eq_false] at h
    match curproc, h with
    | none, h => simp [hE1] at h
    | some ⟨none⟩, h => simp [hE1] at h
    | some ⟨some (as, obj)⟩, h =>
      cases hf : find_region obj.head (faultaddress &&& PAGE_FRAME) with
      | none => simp [hf, hE1] at h
      | some r =>
        exact ⟨as, obj, r, rfl, Nat.pos_of_ne_zero h0, Nat.lt_of_not_le hs, hty, hf⟩
  · simp [h0, hs, hro, hty, hE2] at h

theorem vm_fault_alloc_zero_inv (st : VMState) (as v perms : Nat)
    (h : (vm_fault_alloc st as v perms).1 = 0) :
    ∃ st2 lo, st2.page_table = st.page_table ∧ st2.hpt_size = st.hpt_size ∧
      lo ||| perms = lo ∧
      (page_table_insert st2 v lo as).1 = 0 ∧
      vm_fault_alloc st as v perms = (0, tlb_random (page_table_insert st2 v lo as).2 v lo) := by
  unfold vm_fault_alloc at h ⊢
  by_cases ha : (alloc_kpages st ONE_PAGE).1 = 0
  · simp only [ha, if_true] at h
    exact absurd (show ENOMEM = 0 from h) (by decide)
  · simp only [ha, if_false] at h ⊢
    obtain ⟨t1, t2⟩ := alloc_kpages_table st ONE_PAGE
    refine ⟨bzero (alloc_kpages st ONE_PAGE).2
      (PADDR_TO_KVADDR (KVADDR_TO_PADDR (alloc_kpages st ONE_PAGE).1)) (1 * PAGE_SIZE),
      KVADDR_TO_PADDR (alloc_kpages st ONE_PAGE).1 ||| perms,
      (bzero_table _ _ _).1.trans t1, (bzero_table _ _ _).2.trans t2, ?_, ?_, ?_⟩
    · rw [Nat.lor_assoc, Nat.or_self]
    · by_contra hi
      simp only [ne_eq, hi, not_false_eq_true, if_true] at h
      exact absurd (show EFAULT = 0 from h) (by decide)
    · by_cases hi : (page_table_insert (bzero (alloc_kpages st ONE_PAGE).2
          (PADDR_TO_KVADDR (KVADDR_TO_PADDR (alloc_kpages st ONE_PAGE).1)) (1 * PAGE_SIZE))
          v (KVADDR_TO_PADDR (alloc_kpages st ONE_PAGE).1 ||| perms) as).1 = 0
      · simp only [ne_eq, hi, not_true_eq_false, if_false]
      · simp only [ne_eq, hi, not_false_eq_true, if_true] at h
        exact absurd (show EFAULT = 0 from h) (by decide)

theorem slot_setSlot (st : VMState) (i j : Nat) (s : HPT) :
    (st.setSlot i s).slot j = if j = i ∧ i < st.page_table.length then s else st.slot j := by
  by_cases h : j = i
  · subst h
    by_cases hl : j < st.page_table.length
    · rw [if_pos ⟨rfl, hl⟩]; exact slot_setSlot_same st j s hl
    · rw [if_neg (fun hc => hl hc.2)]
      have hset : st.page_table.set j s = st.page_table :=
        List.set_eq_of_length_le (Nat.le_of_not_lt hl)
      unfold VMState.slot VMState.setSlot
      simp only [hset]
  · rw [if_neg (fun hc => h hc.1)]; exact slot_setSlot_other st i j s h

/-- An insertion never lengthens chain `i` by more than the `kmalloc` results it
consumes. -/
theorem page_table_insert_measure (st : VMState) (hi lo as i : Nat) :
    (page_table_insert st hi lo as).2.kheap.length ≤ st.kheap.length ∧
    (page_table_insert st hi lo as).2.kheap.length
        + ((page_table_insert st hi lo as).2.slot i).next.length
      ≤ st.kheap.length + (st.slot i).next.length := by
  have happ : ∀ (st1 : VMState) (n : PTE), st1.page_table = st.page_table →
      st1.kheap.length + 1 ≤ st.kheap.length →
      (st1.setSlot (hpt_index st as hi) { st1.slot (hpt_index st as hi) with
          next := (st1.slot (hpt_index st as hi)).next ++ [n] }).kheap.length ≤ st.kheap.length ∧
      (st1.setSlot (hpt_index st as hi) { st1.slot (hpt_index st as hi) with
          next := (st1.slot (hpt_index st as hi)).next ++ [n] }).kheap.length
        + ((st1.setSlot (hpt_index st as hi) { st1.slot (hpt_index st as hi) with
          next := (st1.slot (hpt_index st as hi)).next ++ [n] }).slot i).next.length
        ≤ st.kheap.length + (st.slot i).next.length := by
    intro st1 n hpt hk
    have hs : ∀ j, st1.slot j = st.slot j := fun j => by unfold VMState.slot; rw [hpt]
    rw [slot_setSlot]
    have hkh : (st1.setSlot (hpt_index st as hi) { st1.slot (hpt_index st as hi) with
          next := (st1.slot (hpt_index st as hi)).next ++ [n] }).kheap = st1.kheap := rfl
    rw [hkh]
    refine ⟨by omega, ?_⟩
    split
    · rename_i hc
      rw [hc.1, hs]
      simp only [List.length_append, List.length_singleton]
      omega
    · rw [hs]; omega
  unfold page_table_insert
  simp only []
  split
  · refine ⟨Nat.le_refl _, ?_⟩
    rw [slot_setSlot]
    split
    · show st.kheap.length + 0 ≤ _
      omega
    · exact Nat.le_refl _
  · have hkm : (kmalloc st).2.page_table = st.page_table ∧
        ((kmalloc st).1 ≠ 0 → (kmalloc st).2.kheap.length + 1 ≤ st.kheap.length) ∧
        (kmalloc st).2.kheap.length ≤ st.kheap.length := by
      unfold kmalloc
      split
      · exact ⟨rfl, fun h => absurd rfl h, Nat.le_refl _⟩
      · rename_i p rest hk
        rw [hk]
        exact ⟨rfl, fun _ => Nat.le_refl _, Nat.le_succ _⟩
    have hs : ∀ j, (kmalloc st).2.slot j = st.slot j :=
      fun j => by unfold VMState.slot; rw [hkm.1]
    split
    · split
      · refine ⟨hkm.2.2, ?_⟩
        show (kmalloc st).2.kheap.length + ((kmalloc st).2.slot i).next.length ≤ _
        rw [hs]; have := hkm.2.2; omega
      · rename_i hne
        have := happ (kmalloc st).2 ⟨hi, lo, as⟩ hkm.1 (hkm.2.1 hne)
        rename_i hnx
        rw [hs] at this
        rw [hnx] at this
        rw [hs]
        exact this
    · split
      · refine ⟨hkm.2.2, ?_⟩
        show (kmalloc st).2.kheap.length + ((kmalloc st).2.slot i).next.length ≤ _
        rw [hs]; have := hkm.2.2; omega
      · rename_i hne
        exact happ (kmalloc st).2 ⟨hi, lo, as⟩ hkm.1 (hkm.2.1 hne)

theorem alloc_kpages_kheap (st : VMState) (n : Nat) :
    (alloc_kpages st n).2.kheap = st.kheap := by
  unfold alloc_kpages
  split
  · rfl
  · split <;> rfl

theorem memmove_frame (st : VMState) (dst src len : Nat) :
    (memmove st dst src len).kheap = st.kheap ∧
    (memmove st dst src len).page_table = st.page_table ∧
    (memmove st dst src len).hpt_size = st.hpt_size := ⟨rfl, rfl, rfl⟩

theorem copy_node_eq (st : VMState) (newas hi lo : Nat) :
    copy_node st newas hi lo =
      if KVADDR_TO_PADDR (alloc_kpages st 1).1 = 0 then Res.ok (ENOMEM, (alloc_kpages st 1).2)
      else if PADDR_TO_KVADDR (KVADDR_TO_PADDR (alloc_kpages st 1).1) = 0 then Res.null_deref
      else Res.ok (0, (page_table_insert
        (memmove (alloc_kpages st 1).2
          (PADDR_TO_KVADDR (KVADDR_TO_PADDR (alloc_kpages st 1).1))
          (PADDR_TO_KVADDR (lo &&& PAGE_FRAME)) PAGE_SIZE)
        (hi &&& PAGE_FRAME)
        (KVADDR_TO_PADDR (alloc_kpages st 1).1 ||| (lo &&& CTRL_BIT_MASK ||| TLBLO_VALID))
        newas).2) := rfl

theorem copy_node_ne_no_fuel (st : VMState) (newas hi lo : Nat) :
    copy_node st newas hi lo ≠ Res.no_fuel := by
  rw [copy_node_eq]
  split
  · intro h; cases h
  · split <;> intro h <;> cases h

theorem copy_node_measure (st : VMState) (newas hi lo i : Nat) (r : Nat × VMState)
    (hr : copy_node st newas hi lo = Res.ok r) :
    r.2.kheap.length ≤ st.kheap.length ∧
    r.2.kheap.length + (r.2.slot i).next.length
      ≤ st.kheap.length + (st.slot i).next.length := by
  have hk := alloc_kpages_kheap st 1
  have hs : (alloc_kpages st 1).2.slot i = st.slot i := by
    unfold VMState.slot; rw [(alloc_kpages_table st 1).1]
  rw [copy_node_eq] at hr
  by_cases hz : KVADDR_TO_PADDR (alloc_kpages st 1).1 = 0
  · rw [if_pos hz] at hr
    rw [← Res.ok.inj hr]
    simp only [hk, hs]
    exact ⟨Nat.le_refl _, Nat.le_refl _⟩
  · rw [if_neg hz] at hr
    by_cases hn : PADDR_TO_KVADDR (KVADDR_TO_PADDR (alloc_kpages st 1).1) = 0
    · rw [if_pos hn] at hr
      cases hr
    · rw [if_neg hn] at hr
      rw [← Res.ok.inj hr]
      have h := page_table_insert_measure
        (memmove (alloc_kpages st 1).2
          (PADDR_TO_KVADDR (KVADDR_TO_PADDR (alloc_kpages st 1).1))
          (PADDR_TO_KVADDR (lo &&& PAGE_FRAME)) PAGE_SIZE)
        (hi &&& PAGE_FRAME)
        (KVADDR_TO_PADDR (alloc_kpages st 1).1 ||| (lo &&& CTRL_BIT_MASK ||| TLBLO_VALID)) newas i
      have hs2 : ∀ (d s l : Nat), (memmove (alloc_kpages st 1).2 d s l).slot i = st.slot i := by
        intro d s l
        unfold VMState.slot
        rw [(memmove_frame _ d s l).2.1, (alloc_kpages_table st 1).1]
      rw [(memmove_frame _ _ _ _).1, hk, hs2] at h
      exact h

theorem copy_then_fuel (x : Res (Nat × VMState)) (next : VMState → Res (Nat × VMState))
    (hx : x ≠ Res.no_fuel) (hn : ∀ r, x = Res.ok r → r.1 = 0 → next r.2 ≠ Res.no_fuel) :
    copy_then x next ≠ Res.no_fuel := by
  unfold copy_then
  cases x with
  | ok r =>
    simp only []
    by_cases hr : r.1 ≠ 0
    · rw [if_pos hr]; intro hc; cases hc
    · rw [if_neg hr]; exact hn r rfl (Decidable.not_not.mp hr)
  | null_deref => intro hc; cases hc
  | no_fuel => exact absurd rfl hx

theorem copy_chain_succ (old newas i fuel k : Nat) (st : VMState) :
    copy_chain old newas i (fuel + 1) k st =
      match (st.slot i).next.get? k with
      | none => Res.ok (0, st)
      | some curr =>
        if curr.as = old then
          copy_then (copy_node st newas curr.hi curr.lo) (copy_chain old newas i fuel (k + 1))
        else copy_chain old newas i fuel (k + 1) st := rfl

/-- The collision-list walk of `as_copy` ends within the fuel `copy_fuel` grants. -/
theorem copy_chain_fuel (old newas i : Nat) :
    ∀ (fuel k : Nat) (st : VMState),
      st.kheap.length + ((st.slot i).next.length - k) < fuel →
      copy_chain old newas i fuel k st ≠ Res.no_fuel := by
  intro fuel
  induction fuel with
  | zero => intro k st h; omega
  | succ fuel ih =>
    intro k st h
    rw [copy_chain_succ]
    cases hg : (st.slot i).next.get? k with
    | none => intro hc; cases hc
    | some curr =>
      have hk : k < (st.slot i).next.length := by
        by_contra hc
        rw [List.get?_eq_none.mpr (Nat.le_of_not_lt hc)] at hg
        cases hg
      simp only []
      by_cases ho : curr.as = old
      · rw [if_pos ho]
        apply copy_then_fuel (copy_node st newas curr.hi curr.lo)
          (copy_chain old newas i fuel (k + 1)) (copy_node_ne_no_fuel st newas curr.hi curr.lo)
        intro r hr _
        apply ih
        have hm := copy_node_measure st newas curr.hi curr.lo i r hr
        omega
      · rw [if_neg ho]
        apply ih
        omega

theorem copy_slot_fuel (old newas i : Nat) (st : VMState) :
    copy_slot old newas i st ≠ Res.no_fuel := by
  unfold copy_slot
  by_cases h0 : (st.slot i).lo = 0 ∨ (st.slot i).as = 0
  · rw [if_pos h0]; intro hc; cases hc
  · rw [if_neg h0]
    by_cases ho : (st.slot i).as = old
    · rw [if_pos ho]
      apply copy_then_fuel (copy_node st newas (st.slot i).hi (st.slot i).lo)
        (fun st1 => copy_chain old newas i (copy_fuel st1 i) 0 st1)
        (copy_node_ne_no_fuel st newas (st.slot i).hi (st.slot i).lo)
      intro r _ _
      apply copy_chain_fuel
      unfold copy_fuel
      omega
    · rw [if_neg ho]
      apply copy_chain_fuel
      unfold copy_fuel
      omega

theorem copy_loop_fuel (old newas : Nat) :
    ∀ (n : Nat) (st : VMState), copy_loop old newas n st ≠ Res.no_fuel := by
  intro n
  induction n with
  | zero => intro st hc; cases hc
  | succ n ih =>
    intro st
    show copy_then (copy_loop old newas n st) (copy_slot old newas n) ≠ Res.no_fuel
    exact copy_then_fuel _ _ (ih st) (fun r _ _ => copy_slot_fuel old newas n r.2)

/-- The fuel of the embedding is never the reason `as_copy` gives no result: the call
returns or dereferences `NULL`. -/
theorem as_copy_ne_no_fuel (st : VMState) (old : Nat) (oldobj : addrspace) :
    as_copy st old oldobj ≠ Res.no_fuel := by
  unfold as_copy
  simp only []
  split
  · intro hc; cases hc
  · split
    · intro hc; cases hc
    · cases hl : copy_loop old (as_create st).1.1
          (copy_regions (as_create st).2 oldobj.head (as_create st).1.2.head).2.hpt_size
          (copy_regions (as_create st).2 oldobj.head (as_create st).1.2.head).2 with
      | ok r => intro hc; cases hc
      | null_deref => intro hc; cases hc
      | no_fuel => exact absurd hl (copy_loop_fuel _ _ _ _)

/-- Every operation that builds or changes a region list keeps the bases page-aligned
32-bit addresses: the invariant assumed of region lists by the fault-handler
theorems. -/
theorem region_aligned_preserved (st : VMState) (as : addrspace)
    (h : ∀ r ∈ as.head, region_aligned r) :
    (∀ vaddr memsize readable writeable executable, vaddr < 2 ^ 32 →
      ∀ r ∈ (as_define_region st as vaddr memsize readable writeable executable).2.1.head,
        region_aligned r) ∧
    (∀ res, as_define_stack st as = some res → ∀ r ∈ res.as.head, region_aligned r) ∧
    (∀ r ∈ (as_prepare_load as).2.head, region_aligned r) ∧
    (∀ r ∈ (as_complete_load as).2.head, region_aligned r) := by
  have hP : PAGE_SIZE = 4096 := rfl
  refine ⟨?_, ?_, ?_, ?_⟩
  · intro vaddr memsize readable writeable executable hv r hr
    unfold as_define_region init_region at hr
    simp only [] at hr
    by_cases hk : (kmalloc st).1 = 0
    · simp only [hk, if_true] at hr
      exact h r hr
    · simp only [hk, if_false, append_region_eq, List.mem_append, List.mem_singleton] at hr
      rcases hr with hr | hr
      · exact h r hr
      · subst hr
        unfold region_aligned
        simp only [land_PAGE_FRAME vaddr hv, hP]
        constructor
        · omega
        · omega
  · intro res hres r hr
    unfold as_define_stack init_region at hres
    cases hh : as.head with
    | nil => simp [hh] at hres
    | cons x xs =>
      simp only [hh] at hres
      by_cases hk : (kmalloc st).1 = 0
      · simp only [hk, if_true, Option.some.injEq] at hres
        subst hres
        exact h r hr
      · simp only [hk, if_false, Option.some.injEq] at hres
        subst hres
        simp only [append_region_eq, List.mem_append, List.mem_singleton] at hr
        rcases hr with hr | hr
        · exact h r (hh ▸ hr)
        · subst hr
          decide
  · intro r hr
    simp only [as_prepare_load, List.mem_map] at hr
    obtain ⟨r0, h0, rfl⟩ := hr
    exact h r0 h0
  · intro r hr
    simp only [as_complete_load, List.mem_map] at hr
    obtain ⟨r0, h0, rfl⟩ := hr
    exact h r0 h0

theorem copy_regions_aligned (st : VMState) (old acc : List mem_region)
    (hold : ∀ r ∈ old, region_aligned r) (hacc : ∀ r ∈ acc, region_aligned r) :
    ∀ r ∈ (copy_regions st old acc).1.2, region_aligned r := by
  induction old generalizing st acc with
  | nil => exact hacc
  | cons o rest ih =>
    unfold copy_regions init_region
    simp only []
    by_cases hk : (kmalloc st).1 = 0
    · simp only [hk, if_true]
      exact hacc
    · simp only [hk, if_false]
      apply ih
      · exact fun r hr => hold r (List.mem_cons_of_mem o hr)
      · intro r hr
        rw [append_region_eq, List.mem_append, List.mem_singleton] at hr
        rcases hr with hr | hr
        · exact hacc r hr
        · subst hr
          exact hold o (List.mem_cons_self o rest)

theorem hpt_extends_of_table_eq (a b : VMState) (h1 : b.hpt_size = a.hpt_size)
    (h2 : b.page_table = a.page_table) : hpt_extends a b := by
  have hs : ∀ i, b.slot i = a.slot i := fun i => by unfold VMState.slot; rw [h2]
  refine ⟨h1, by rw [h2], fun i _ => ?_⟩
  rw [hs]
  exact ⟨rfl, rfl, rfl, [], (List.append_nil _).symm⟩

theorem hpt_extends_refl (a : VMState) : hpt_extends a a :=
  hpt_extends_of_table_eq a a rfl rfl

theorem hpt_extends_trans (a b c : VMState) (h1 : hpt_extends a b) (h2 : hpt_extends b c) :
    hpt_extends a c := by
  refine ⟨h2.1.trans h1.1, h2.2.1.trans h1.2.1, fun i hi => ?_⟩
  obtain ⟨p1, p2, p3, m1, p4⟩ := h1.2.2 i hi
  obtain ⟨q1, q2, q3, m2, q4⟩ := h2.2.2 i (by rw [p2]; exact hi)
  refine ⟨q1.trans p1, q2.trans p2, q3.trans p3, m1 ++ m2, ?_⟩
  rw [q4, p4, List.append_assoc]

theorem setSlot_append_extends (a st1 : VMState) (idx : Nat) (n : PTE)
    (h1 : st1.hpt_size = a.hpt_size) (h2 : st1.page_table = a.page_table) :
    hpt_extends a (st1.setSlot idx { st1.slot idx with next := (st1.slot idx).next ++ [n] }) := by
  have hs : ∀ i, st1.slot i = a.slot i := fun i => by unfold VMState.slot; rw [h2]
  refine ⟨h1, ?_, fun i _ => ?_⟩
  · show (st1.page_table.set _ _).length = _
    rw [List.length_set, h2]
  · rw [slot_setSlot]
    split
    · rename_i hc
      rw [hc.1, hs]
      exact ⟨rfl, rfl, rfl, [n], rfl⟩
    · rw [hs]
      exact ⟨rfl, rfl, rfl, [], (List.append_nil _).symm⟩

theorem kmalloc_table (st : VMState) :
    (kmalloc st).2.hpt_size = st.hpt_size ∧ (kmalloc st).2.page_table = st.page_table := by
  unfold kmalloc
  split <;> exact ⟨rfl, rfl⟩

/-- An insertion only extends the table. -/
theorem page_table_insert_extends (st : VMState) (hi lo as : Nat) :
    hpt_extends st (page_table_insert st hi lo as).2 := by
  obtain ⟨k1, k2⟩ := kmalloc_table st
  unfold page_table_insert
  simp only []
  split
  · rename_i hz
    refine ⟨rfl, ?_, fun i hi2 => ?_⟩
    · show (st.page_table.set _ _).length = _
      rw [List.length_set]
    · show ((st.setSlot _ _).slot i).hi = _ ∧ ((st.setSlot _ _).slot i).lo = _ ∧
        ((st.setSlot _ _).slot i).as = _ ∧ ∃ more, ((st.setSlot _ _).slot i).next = _
      rw [slot_setSlot]
      split
      · rename_i hc
        rw [hc.1] at hi2
        exact absurd hz hi2
      · exact ⟨rfl, rfl, rfl, [], (List.append_nil _).symm⟩
  · split
    · split
      · exact hpt_extends_of_table_eq _ _ k1 k2
      · rename_i hnx _
        have h := setSlot_append_extends st (kmalloc st).2 (hpt_index st as hi) ⟨hi, lo, as⟩ k1 k2
        have hs : (kmalloc st).2.slot (hpt_index st as hi) = st.slot (hpt_index st as hi) := by
          unfold VMState.slot; rw [k2]
        rw [hs, hnx] at h
        rw [hs]
        exact h
    · split
      · exact hpt_extends_of_table_eq _ _ k1 k2
      · exact setSlot_append_extends st (kmalloc st).2 (hpt_index st as hi) ⟨hi, lo, as⟩ k1 k2

theorem chain_find_append_some (chain more : List PTE) (v : Nat) (e : PTE)
    (h : chain_find chain v = some e) : chain_find (chain ++ more) v = some e := by
  induction chain with
  | nil => simp [chain_find] at h
  | cons n rest ih =>
    unfold chain_find at h
    simp only [List.cons_append, chain_find]
    by_cases hc : n.hi = v ∧ n.lo ≠ 0
    · rw [if_pos hc] at h ⊢; exact h
    · rw [if_neg hc] at h ⊢; exact ih h

/-- A lookup that succeeds keeps its result when the table is extended. -/
theorem bucket_lookup_extends (a b : VMState) (i v : Nat) (e : PTE)
    (hext : hpt_extends a b) (h : bucket_lookup (a.slot i) v = some e) :
    bucket_lookup (b.slot i) v = some e := by
  unfold bucket_lookup at h ⊢
  have hlo : (a.slot i).lo ≠ 0 := by
    intro hz
    have h1 : ¬ ((a.slot i).hi = v ∧ (a.slot i).lo ≠ 0) := fun hc => hc.2 hz
    have h2 : ¬ ((a.slot i).lo ≠ 0 ∧ (a.slot i).next ≠ []) := fun hc => hc.1 hz
    rw [if_neg h1, if_neg h2] at h
    cases h
  obtain ⟨p1, p2, p3, more, p4⟩ := hext.2.2 i hlo
  rw [p1, p2, p3, p4]
  by_cases hp : (a.slot i).hi = v ∧ (a.slot i).lo ≠ 0
  · rw [if_pos hp] at h ⊢; exact h
  · rw [if_neg hp] at h ⊢
    by_cases hn : (a.slot i).next = []
    · have h2 : ¬ ((a.slot i).lo ≠ 0 ∧ (a.slot i).next ≠ []) := fun hc => hc.2 hn
      rw [if_neg h2] at h
      cases h
    · rw [if_pos ⟨hlo, hn⟩] at h
      have hn2 : (a.slot i).next ++ more ≠ [] := by
        intro hc
        exact hn (List.append_eq_nil.mp hc).1
      rw [if_pos ⟨hlo, hn2⟩]
      exact chain_find_append_some _ _ _ _ h

/-- A fault only extends the table. -/
theorem vm_fault_extends (st : VMState) (curproc : Option proc) (faulttype : Int)
    (faultaddress : Nat) : hpt_extends st (vm_fault st curproc faulttype faultaddress).2 := by
  have hlk : ∀ as v mode, hpt_extends st (vm_fault_lookup st as v mode).2 := by
    intro as v mode
    rw [vm_fault_lookup_eq]
    split
    · exact hpt_extends_of_table_eq _ _ rfl rfl
    · unfold vm_fault_alloc
      simp only []
      obtain ⟨t1, t2⟩ := alloc_kpages_table st ONE_PAGE
      split
      · exact hpt_extends_of_table_eq _ _ t2 t1
      · have hb : ∀ (a l : Nat), hpt_extends st (bzero (alloc_kpages st ONE_PAGE).2 a l) :=
          fun a l => hpt_extends_of_table_eq _ _
            ((bzero_table _ a l).2.trans t2) ((bzero_table _ a l).1.trans t1)
        have hi := page_table_insert_extends
          (bzero (alloc_kpages st ONE_PAGE).2
            (PADDR_TO_KVADDR (KVADDR_TO_PADDR (alloc_kpages st ONE_PAGE).1)) (1 * PAGE_SIZE))
          v (KVADDR_TO_PADDR (alloc_kpages st ONE_PAGE).1 ||| fault_perms mode) as
        have h := hpt_extends_trans _ _ _ (hb _ _) hi
        split
        · exact hpt_extends_trans _ _ _ h (hpt_extends_of_table_eq _ _ rfl rfl)
        · exact hpt_extends_trans _ _ _ h (hpt_extends_of_table_eq _ _ rfl rfl)
  unfold vm_fault
  simp only []
  split
  · exact hpt_extends_refl st
  split
  · exact hpt_extends_refl st
  split
  · exact hpt_extends_refl st
  split
  · exact hpt_extends_refl st
  split
  · exact hpt_extends_refl st
  · split
    · exact hpt_extends_refl st
    · split
      · exact hpt_extends_refl st
      · exact hlk _ _ _

theorem copy_node_extends (st : VMState) (newas hi lo : Nat) (r : Nat × VMState)
    (hr : copy_node st newas hi lo = Res.ok r) : hpt_extends st r.2 := by
  obtain ⟨t1, t2⟩ := alloc_kpages_table st 1
  rw [copy_node_eq] at hr
  by_cases hz : KVADDR_TO_PADDR (alloc_kpages st 1).1 = 0
  · rw [if_pos hz] at hr
    rw [← Res.ok.inj hr]
    exact hpt_extends_of_table_eq _ _ t2 t1
  · rw [if_neg hz] at hr
    by_cases hn : PADDR_TO_KVADDR (KVADDR_TO_PADDR (alloc_kpages st 1).1) = 0
    · rw [if_pos hn] at hr
      cases hr
    · rw [if_neg hn] at hr
      rw [← Res.ok.inj hr]
      have hm : ∀ (d s l : Nat), hpt_extends st (memmove (alloc_kpages st 1).2 d s l) :=
        fun d s l => hpt_extends_of_table_eq _ _
          ((memmove_frame _ d s l).2.2.trans t2) ((memmove_frame _ d s l).2.1.trans t1)
      exact hpt_extends_trans _ _ _ (hm _ _ _) (page_table_insert_extends _ _ _ _)

theorem copy_then_extends (st : VMState) (x : Res (Nat × VMState))
    (next : VMState → Res (Nat × VMState)) (r : Nat × VMState)
    (hx : ∀ r1, x = Res.ok r1 → hpt_extends st r1.2)
    (hn : ∀ r1 r2, x = Res.ok r1 → next r1.2 = Res.ok r2 → hpt_extends r1.2 r2.2)
    (h : copy_then x next = Res.ok r) : hpt_extends st r.2 := by
  unfold copy_then at h
  cases x with
  | ok r1 =>
    simp only [] at h
    by_cases hr : r1.1 ≠ 0
    · rw [if_pos hr] at h
      rw [← Res.ok.inj h]
      exact hx r1 rfl
    · rw [if_neg hr] at h
      exact hpt_extends_trans _ _ _ (hx r1 rfl) (hn r1 r rfl h)
  | null_deref => cases h
  | no_fuel => cases h

theorem copy_chain_extends (old newas i : Nat) :
    ∀ (fuel k : Nat) (st : VMState) (r : Nat × VMState),
      copy_chain old newas i fuel k st = Res.ok r → hpt_extends st r.2 := by
  intro fuel
  induction fuel with
  | zero => intro k st r h; cases h
  | succ fuel ih =>
    intro k st r h
    rw [copy_chain_succ] at h
    cases hg : (st.slot i).next.get? k with
    | none =>
      rw [hg] at h
      rw [← Res.ok.inj h]
      exact hpt_extends_refl st
    | some curr =>
      rw [hg] at h
      simp only [] at h
      by_cases ho : curr.as = old
      · rw [if_pos ho] at h
        exact copy_then_extends st (copy_node st newas curr.hi curr.lo)
          (copy_chain old newas i fuel (k + 1)) r
          (fun r1 h1 => copy_node_extends st newas curr.hi curr.lo r1 h1)
          (fun r1 r2 _ h2 => ih (k + 1) r1.2 r2 h2) h
      · rw [if_neg ho] at h
        exact ih _ _ _ h

theorem copy_slot_extends (old newas i : Nat) (st : VMState) (r : Nat × VMState)
    (h : copy_slot old newas i st = Res.ok r) : hpt_extends st r.2 := by
  unfold copy_slot at h
  by_cases h0 : (st.slot i).lo = 0 ∨ (st.slot i).as = 0
  · rw [if_pos h0] at h
    rw [← Res.ok.inj h]
    exact hpt_extends_refl st
  · rw [if_neg h0] at h
    by_cases ho : (st.slot i).as = old
    · rw [if_pos ho] at h
      exact copy_then_extends st (copy_node st newas (st.slot i).hi (st.slot i).lo)
        (fun st1 => copy_chain old newas i (copy_fuel st1 i) 0 st1) r
        (fun r1 h1 => copy_node_extends st newas (st.slot i).hi (st.slot i).lo r1 h1)
        (fun r1 r2 _ h2 => copy_chain_extends old newas i (copy_fuel r1.2 i) 0 r1.2 r2 h2) h
    · rw [if_neg ho] at h
      exact copy_chain_extends old newas i (copy_fuel st i) 0 st r h

theorem copy_loop_extends (old newas : Nat) :
    ∀ (n : Nat) (st : VMState) (r : Nat × VMState),
      copy_loop old newas n st = Res.ok r → hpt_extends st r.2 := by
  intro n
  induction n with
  | zero => intro st r h; rw [← Res.ok.inj h]; exact hpt_extends_refl st
  | succ n ih =>
    intro st r h
    have h2 : copy_then (copy_loop old newas n st) (copy_slot old newas n) = Res.ok r := h
    exact copy_then_extends st (copy_loop old newas n st) (copy_slot old newas n) r
      (fun r1 h1 => ih st r1 h1)
      (fun r1 r2 _ h3 => copy_slot_extends old newas n r1.2 r2 h3) h2

theorem init_region_table (st : VMState) (vbase size mode acc_mode : Nat) :
    (init_region st vbase size mode acc_mode).2.hpt_size = st.hpt_size ∧
    (init_region st vbase size mode acc_mode).2.page_table = st.page_table := by
  unfold init_region
  simp only []
  split <;> exact kmalloc_table st

theorem copy_regions_table (old : List mem_region) :
    ∀ (st : VMState) (acc : List mem_region),
      (copy_regions st old acc).2.hpt_size = st.hpt_size ∧
      (copy_regions st old acc).2.page_table = st.page_table := by
  induction old with
  | nil => intro st acc; exact ⟨rfl, rfl⟩
  | cons o rest ih =>
    intro st acc
    obtain ⟨i1, i2⟩ := init_region_table st o.vbase o.size o.mode o.acc_mode
    unfold copy_regions
    simp only []
    split
    · exact ⟨i1, i2⟩
    · obtain ⟨c1, c2⟩ := ih (init_region st o.vbase o.size o.mode o.acc_mode).2
        (append_region acc _)
      exact ⟨c1.trans i1, c2.trans i2⟩

/-- A copy whose region list is cloned without failure only extends the table; the
region-failure path is the one that runs `as_destroy`. -/
theorem as_copy_extends (st : VMState) (old : Nat) (oldobj : addrspace) (r : CopyResult)
    (h : as_copy st old oldobj = Res.ok r) (hret : r.ret ≠ none) : hpt_extends st r.st := by
  obtain ⟨k1, k2⟩ := kmalloc_table st
  obtain ⟨c1, c2⟩ := copy_regions_table oldobj.head (as_create st).2 (as_create st).1.2.head
  have hbase : hpt_extends st
      (copy_regions (as_create st).2 oldobj.head (as_create st).1.2.head).2 :=
    hpt_extends_of_table_eq _ _ (c1.trans k1) (c2.trans k2)
  unfold as_copy at h
  simp only [] at h
  split at h
  · cases h
  · split at h
    · rw [← Res.ok.inj h] at hret
      exact absurd rfl hret
    · cases hl : copy_loop old (as_create st).1.1
          (copy_regions (as_create st).2 oldobj.head (as_create st).1.2.head).2.hpt_size
          (copy_regions (as_create st).2 oldobj.head (as_create st).1.2.head).2 with
      | ok r1 =>
        rw [hl] at h
        rw [← Res.ok.inj h]
        exact hpt_extends_trans _ _ _ hbase (copy_loop_extends _ _ _ _ _ hl)
      | null_deref => rw [hl] at h; cases h
      | no_fuel => rw [hl] at h; cases h

/-- Hit path: when the bucket lookup finds `e`, a valid fault returns 0 and only
writes the TLB. -/
theorem vm_fault_hit (st : VMState) (as : Nat) (obj : addrspace) (faulttype : Int)
    (faultaddress : Nat) (r : mem_region) (e : PTE)
    (hty : faulttype = VM_FAULT_READ ∨ faulttype = VM_FAULT_WRITE)
    (hpos : 0 < page_of faultaddress) (hlt : page_of faultaddress < USERSTACK)
    (hf : find_region obj.head (page_of faultaddress) = some r)
    (hl : bucket_lookup (st.slot (hpt_index st as (page_of faultaddress))) (page_of faultaddress)
      = some e) :
    vm_fault st (some ⟨some (as, obj)⟩) faulttype faultaddress
      = (0, tlb_random st (page_of faultaddress) (e.lo ||| derived_ctrl r.mode)) := by
  rw [vm_fault_valid_request st as obj faulttype faultaddress r hty hpos hlt hf,
    vm_fault_lookup_eq, hl]
  simp only [fault_perms_eq_derived_ctrl, (bucket_lookup_some _ _ _ hl).2.1]

/-- A fault that returns 0 leaves a node for the page in its bucket, found by the
lookup, whose `lo` word with the control bits is the TLB word the fault wrote. -/
theorem vm_fault_leaves_node (st : VMState) (as : Nat) (obj : addrspace) (faulttype : Int)
    (faultaddress : Nat) (htab : table_ok st)
    (h1 : (vm_fault st (some ⟨some (as, obj)⟩) faulttype faultaddress).1 = 0) :
    ∃ R e, find_region obj.head (page_of faultaddress) = some R ∧
      0 < page_of faultaddress ∧ page_of faultaddress < USERSTACK ∧
      bucket_lookup ((vm_fault st (some ⟨some (as, obj)⟩) faulttype faultaddress).2.slot
          (hpt_index st as (page_of faultaddress))) (page_of faultaddress) = some e ∧
      (vm_fault st (some ⟨some (as, obj)⟩) faulttype faultaddress).2.tlb.head?
        = some (page_of faultaddress, e.lo ||| derived_ctrl R.mode) := by
  obtain ⟨as1, obj1, R, hcur, hpos, hlt, hty1, hf⟩ :=
    vm_fault_zero_inv st _ faulttype faultaddress h1
  simp only [Option.some.injEq, proc.mk.injEq, Prod.mk.injEq] at hcur
  obtain ⟨rfl, rfl⟩ := hcur
  have e1 := vm_fault_valid_request st as obj faulttype faultaddress R hty1 hpos hlt hf
  rw [e1, vm_fault_lookup_eq] at h1 ⊢
  cases hl : bucket_lookup (st.slot (hpt_index st as (page_of faultaddress)))
      (page_of faultaddress) with
  | some e =>
    simp only [hl] at h1 ⊢
    refine ⟨R, e, hf, hpos, hlt, hl, ?_⟩
    simp [tlb_random, (bucket_lookup_some _ _ _ hl).2.1, fault_perms_eq_derived_ctrl]
  | none =>
    simp only [hl] at h1 ⊢
    obtain ⟨st2, lo, t1, t2, hlo, hins, heq⟩ :=
      vm_fault_alloc_zero_inv st as (page_of faultaddress) (fault_perms R.mode) h1
    have htab2 : table_ok st2 := by
      unfold table_ok; rw [t1, t2]; exact htab
    have hidx2 : hpt_index st2 as (page_of faultaddress)
        = hpt_index st as (page_of faultaddress) := by
      unfold hpt_index; rw [t2]
    have hs2 : st2.slot (hpt_index st as (page_of faultaddress))
        = st.slot (hpt_index st as (page_of faultaddress)) := by
      unfold VMState.slot; rw [t1]
    obtain ⟨hslot, _⟩ := page_table_insert_slot st2 (page_of faultaddress) lo as htab2 hins
    rw [hidx2, hs2] at hslot
    have hlo0 : lo ≠ 0 := by
      rw [← hlo]
      exact lor_ne_zero_of_testBit _ _ 9 (fault_perms_valid R.mode)
    have hnew : bucket_lookup ((page_table_insert st2 (page_of faultaddress) lo as).2.slot
        (hpt_index st as (page_of faultaddress))) (page_of faultaddress)
        = some ⟨page_of faultaddress, lo, as⟩ := by
      rw [hslot]
      by_cases hz : (st.slot (hpt_index st as (page_of faultaddress))).lo = 0
      · rw [if_pos hz]
        unfold bucket_lookup
        rw [if_pos ⟨rfl, hlo0⟩]
      · rw [if_neg hz]
        unfold bucket_lookup at hl ⊢
        by_cases hp : (st.slot (hpt_index st as (page_of faultaddress))).hi = page_of faultaddress ∧
            (st.slot (hpt_index st as (page_of faultaddress))).lo ≠ 0
        · rw [if_pos hp] at hl; cases hl
        · rw [if_neg hp] at hl
          have hcf : chain_find (st.slot (hpt_index st as (page_of faultaddress))).next
              (page_of faultaddress) = none := by
            by_cases hnx : (st.slot (hpt_index st as (page_of faultaddress))).next = []
            · rw [hnx]; rfl
            · rw [if_pos ⟨hz, hnx⟩] at hl; exact hl
          rw [if_neg hp, if_pos ⟨hz, by simp⟩]
          exact chain_find_append_new _ _ _ _ hlo0 hcf
    rw [heq]
    refine ⟨R, ⟨page_of faultaddress, lo, as⟩, hf, hpos, hlt, hnew, ?_⟩
    show some (page_of faultaddress, lo) = _
    rw [← fault_perms_eq_derived_ctrl, hlo]

theorem elf_flag_bits (readable writeable executable : Nat)
    (hr : readable = 0 ∨ readable = PF_R) (hw : writeable = 0 ∨ writeable = PF_W)
    (hx : executable = 0 ∨ executable = PF_X) :
    ((readable ||| writeable ||| executable) &&& PF_R = PF_R ↔ readable ≠ 0) ∧
    ((readable ||| writeable ||| executable) &&& PF_W = PF_W ↔ writeable ≠ 0) ∧
    ((readable ||| writeable ||| executable) &&& PF_X = PF_X ↔ executable ≠ 0) := by
  rcases hr with hr | hr <;> rcases hw with hw | hw <;> rcases hx with hx | hx <;>
    subst hr <;> subst hw <;> subst hx <;> decide

/-- The stack definition on a region list that is not empty: with a successful region
allocation it returns 0, appends the stack region last and stores `USERSTACK`. -/
theorem as_define_stack_nonempty (st : VMState) (as : addrspace)
    (hne : as.head ≠ []) (hk : (kmalloc st).1 ≠ 0) :
    ∃ res, as_define_stack st as = some res ∧ res.err = 0 ∧
      res.as.head = as.head ++
        [⟨USERSTACK - STACKPAGES * PAGE_SIZE, STACKPAGES, PF_R ||| PF_W ||| PF_X,
          PF_R ||| PF_W ||| PF_X⟩] ∧
      res.stackptr = some USERSTACK := by
  unfold as_define_stack init_region
  cases hh : as.head with
  | nil => exact absurd hh hne
  | cons x xs =>
    simp only [hk, if_false]
    refine ⟨_, rfl, rfl, ?_, rfl⟩
    rw [append_region_eq]
    rfl

theorem copy_regions_clone (old : List mem_region) :
    ∀ (st : VMState) (acc : List mem_region),
      (copy_regions st old acc).1.1 = true → (copy_regions st old acc).1.2 = acc ++ old := by
  induction old with
  | nil => intro st acc _; simp [copy_regions]
  | cons o rest ih =>
    intro st acc h
    unfold copy_regions init_region at h ⊢
    simp only [] at h ⊢
    by_cases hk : (kmalloc st).1 = 0
    · simp only [hk, if_true] at h
      cases h
    · simp only [hk, if_false] at h ⊢
      rw [ih _ _ h, append_region_eq]
      simp

/-- Shape of the result of `as_copy` when it returns 0: the pointer of `as_create` is
stored through `ret`; when it is not `NULL` the new object holds the regions of the
old one; when it is `NULL` there is no new object and the old one has no regions. -/
theorem as_copy_zero_regions (st : VMState) (old : Nat) (oldobj : addrspace) (r : CopyResult)
    (h : as_copy st old oldobj = Res.ok r) (h0 : r.err = 0) :
    r.ret = some r.newas ∧ r.newas = (as_create st).1.1 ∧
    (r.newas ≠ 0 → r.newobj = some oldobj) ∧
    (r.newas = 0 → r.newobj = none ∧ oldobj.head = []) := by
  unfold as_copy at h
  simp only [] at h
  split at h
  · cases h
  · rename_i hnull
    split at h
    · rw [← Res.ok.inj h] at h0
      exact absurd (show ENOMEM = 0 from h0) (by decide)
    · rename_i hflag
      have hclone := copy_regions_clone oldobj.head (as_create st).2 (as_create st).1.2.head
        (by simpa using hflag)
      cases hl : copy_loop old (as_create st).1.1
          (copy_regions (as_create st).2 oldobj.head (as_create st).1.2.head).2.hpt_size
          (copy_regions (as_create st).2 oldobj.head (as_create st).1.2.head).2 with
      | ok r1 =>
        rw [hl] at h
        rw [← Res.ok.inj h]
        refine ⟨rfl, rfl, fun hnn => ?_, fun hz => ?_⟩
        · show (if (as_create st).1.1 = 0 then none else some (addrspace.mk _)) = some oldobj
          rw [if_neg hnn, hclone]
          rfl
        · refine ⟨?_, ?_⟩
          · show (if (as_create st).1.1 = 0 then none else some (addrspace.mk _)) = none
            rw [if_pos hz]
          · by_contra hne
            exact hnull ⟨hz, hne⟩
      | null_deref => rw [hl] at h; cases h
      | no_fuel => rw [hl] at h; cases h

theorem Res.map_eq_ok {α β : Type} (f : α → β) (x : Res α) (b : β)
    (h : x.map f = Res.ok b) : ∃ a, x = Res.ok a ∧ f a = b := by
  cases x with
  | ok a => exact ⟨a, rfl, Res.ok.inj h⟩
  | null_deref => cases h
  | no_fuel => cases h

/-- An insertion leaves every slot other than the target as it was. -/
theorem page_table_insert_other (st : VMState) (hi lo as j : Nat)
    (hj : j ≠ hpt_index st as hi) :
    (page_table_insert st hi lo as).2.slot j = st.slot j := by
  have hs : ∀ k, (kmalloc st).2.slot k = st.slot k :=
    fun k => by unfold VMState.slot; rw [(kmalloc_table st).2]
  unfold page_table_insert
  simp only []
  split
  · exact slot_setSlot_other st _ j _ hj
  · split
    · split
      · exact hs j
      · exact (slot_setSlot_other (kmalloc st).2 _ j _ hj).trans (hs j)
    · split
      · exact hs j
      · exact (slot_setSlot_other (kmalloc st).2 _ j _ hj).trans (hs j)

/-- Return code of an insertion, and what a failed one leaves behind. -/
theorem page_table_insert_code (st : VMState) (hi lo as : Nat) :
    ((st.slot (hpt_index st as hi)).lo = 0 →
      page_table_insert st hi lo as
        = (0, st.setSlot (hpt_index st as hi) ⟨hi, lo, as, []⟩)) ∧
    ((st.slot (hpt_index st as hi)).lo ≠ 0 → (kmalloc st).1 = 0 →
      page_table_insert st hi lo as = (ENOMEM, (kmalloc st).2)) ∧
    ((st.slot (hpt_index st as hi)).lo ≠ 0 → (kmalloc st).1 ≠ 0 →
      (page_table_insert st hi lo as).1 = 0) := by
  refine ⟨?_, ?_, ?_⟩
  · intro hz
    unfold page_table_insert
    simp only [hz, if_true]
  · intro hz hk
    unfold page_table_insert
    simp only [hz, if_false, hk, if_true, ite_self]
  · intro hz hk
    unfold page_table_insert
    simp only [hz, if_false, hk]
    split <;> rfl

/-- What the collision-list walk of `as_destroy` keeps and frees: the nodes of other
owners stay in order, nothing is added, and every frame freed is the frame of a node
of `as` in the list. -/
theorem destroy_chain_spec (as : Nat) :
    ∀ (n : Nat) (c : List PTE), c.length ≤ n →
      ((destroy_chain as c).1.filter (fun x => decide (x.as ≠ as))
        = c.filter (fun x => decide (x.as ≠ as))) ∧
      (∀ x ∈ (destroy_chain as c).1, x ∈ c) ∧
      (∀ f ∈ (destroy_chain as c).2, ∃ x ∈ c, x.as = as ∧ f = frame_kvaddr x.lo) := by
  intro n
  induction n with
  | zero =>
    intro c hc
    have : c = [] := List.length_eq_zero.mp (Nat.le_zero.mp hc)
    subst this
    simp [destroy_chain]
  | succ n ih =>
    intro c hc
    cases c with
    | nil => simp [destroy_chain]
    | cons x rest =>
      by_cases hx : x.as = as
      · cases rest with
        | nil =>
          simp [destroy_chain, hx]
        | cons y rest2 =>
          have hlen : rest2.length ≤ n := by
            simp only [List.length_cons] at hc
            omega
          obtain ⟨i1, i2, i3⟩ := ih rest2 hlen
          have e : destroy_chain as (x :: y :: rest2)
              = (y :: (destroy_chain as rest2).1,
                 frame_kvaddr x.lo :: (destroy_chain as rest2).2) := by
            simp [destroy_chain, hx]
          rw [e]
          refine ⟨?_, ?_, ?_⟩
          · simp only [List.filter_cons, hx, ne_eq, not_true_eq_false, decide_False,
              Bool.false_eq_true, if_false, i1]
          · intro z hz
            rcases List.mem_cons.mp hz with h | h
            · rw [h]; simp
            · have := i2 z h
              simp [this]
          · intro f hf
            rcases List.mem_cons.mp hf with h | h
            · exact ⟨x, List.mem_cons_self _ _, hx, h⟩
            · obtain ⟨w, hw, hw2, hw3⟩ := i3 f h
              exact ⟨w, by simp [hw], hw2, hw3⟩
      · have hlen : rest.length ≤ n := by
          simp only [List.length_cons] at hc
          omega
        obtain ⟨i1, i2, i3⟩ := ih rest hlen
        have e : destroy_chain as (x :: rest)
            = (x :: (destroy_chain as rest).1, (destroy_chain as rest).2) := by
          cases rest with
          | nil => simp [destroy_chain, hx]
          | cons y rest2 => simp [destroy_chain, hx]
        rw [e]
        refine ⟨?_, ?_, ?_⟩
        · simp only [List.filter_cons, hx, ne_eq, not_false_eq_true, decide_True, if_true, i1]
        · intro z hz
          rcases List.mem_cons.mp hz with h | h
          · rw [h]; simp
          · have := i2 z h
            simp [this]
        · intro f hf
          obtain ⟨w, hw, hw2, hw3⟩ := i3 f hf
          exact ⟨w, by simp [hw], hw2, hw3⟩

/-- What the head loop of `as_destroy` does to a bucket with primary fields
`hi lo owner` and chain `chain`: it frees a prefix `pre` of nodes of `as`; either the
whole bucket was that prefix and the slot is reset, or the first node of another owner
is now the primary entry and the rest of the bucket is its chain. -/
theorem destroy_head_spec (as i : Nat) :
    ∀ (chain : List PTE) (hi lo owner : Nat),
      ∃ pre : List PTE,
        (∀ x ∈ pre, x.as = as) ∧
        (destroy_head as i hi lo owner chain).2.1 = pre.map (fun x => frame_kvaddr x.lo) ∧
        (((destroy_head as i hi lo owner chain).2.2 = true ∧
            (destroy_head as i hi lo owner chain).1 = empty_slot i ∧
            (⟨hi, lo, owner⟩ : PTE) :: chain = pre) ∨
         ((destroy_head as i hi lo owner chain).2.2 = false ∧
            (destroy_head as i hi lo owner chain).1.as ≠ as ∧
            (⟨hi, lo, owner⟩ : PTE) :: chain
              = pre ++ (⟨(destroy_head as i hi lo owner chain).1.hi,
                          (destroy_head as i hi lo owner chain).1.lo,
                          (destroy_head as i hi lo owner chain).1.as⟩
                        :: (destroy_head as i hi lo owner chain).1.next))) := by
  intro chain
  induction chain with
  | nil =>
    intro hi lo owner
    by_cases ho : owner = as
    · refine ⟨[⟨hi, lo, owner⟩], ?_, ?_, Or.inl ?_⟩
      · intro x hx
        rw [List.mem_singleton.mp hx]; exact ho
      · simp [destroy_head, ho]
      · simp [destroy_head, ho]
    · refine ⟨[], ?_, ?_, Or.inr ?_⟩
      · intro x hx; cases hx
      · simp [destroy_head, ho]
      · simp [destroy_head, ho]
  | cons n rest ih =>
    intro hi lo owner
    by_cases ho : owner = as
    · obtain ⟨pre, h1, h2, h3⟩ := ih n.hi n.lo n.as
      have e : destroy_head as i hi lo owner (n :: rest)
          = ((destroy_head as i n.hi n.lo n.as rest).1,
             frame_kvaddr lo :: (destroy_head as i n.hi n.lo n.as rest).2.1,
             (destroy_head as i n.hi n.lo n.as rest).2.2) := by
        simp [destroy_head, ho]
      rw [e]
      refine ⟨⟨hi, lo, owner⟩ :: pre, ?_, ?_, ?_⟩
      · intro x hx
        rcases List.mem_cons.mp hx with h | h
        · rw [h]; exact ho
        · exact h1 x h
      · simp [h2]
      · rcases h3 with ⟨a, b, c⟩ | ⟨a, b, c⟩
        · exact Or.inl ⟨a, b, by rw [← c]⟩
        · refine Or.inr ⟨a, b, ?_⟩
          show (⟨hi, lo, owner⟩ : PTE) :: n :: rest = (⟨hi, lo, owner⟩ : PTE) :: pre ++ _
          rw [List.cons_append, ← c]
    · refine ⟨[], ?_, ?_, Or.inr ?_⟩
      · intro x hx; cases hx
      · simp [destroy_head, ho]
      · simp [destroy_head, ho]

theorem empty_slot_nodes (i : Nat) : (empty_slot i).nodes = [] := rfl

theorem nodes_of_occupied (s : HPT) (h : s.lo ≠ 0) :
    s.nodes = (⟨s.hi, s.lo, s.as⟩ : PTE) :: s.next := by
  simp [HPT.nodes, h]

theorem mem_nodes_of_mem_next (s : HPT) (x : PTE) (h : x ∈ s.next) : x ∈ s.nodes := by
  simp [HPT.nodes, h]

theorem filter_owned_nil (as : Nat) (pre : List PTE) (h : ∀ x ∈ pre, x.as = as) :
    pre.filter (fun x => decide (x.as ≠ as)) = [] := by
  rw [List.filter_eq_nil_iff]
  intro x hx
  simp [h x hx]

/-- What the body of the `for` loop of `as_destroy` does to one slot whose chain
nodes are all occupied: nodes of other owners stay, in order; nothing is added; the
structural invariant is kept; every frame freed belonged to a node of `as`; and a
bucket holding only nodes of `as` becomes the empty sentinel. -/
theorem destroy_slot_spec (as i : Nat) (s : HPT) (hch : ∀ n ∈ s.next, n.lo ≠ 0) :
    ((destroy_slot as i s).1.nodes.filter (fun x => decide (x.as ≠ as))
      = s.nodes.filter (fun x => decide (x.as ≠ as))) ∧
    (∀ x ∈ (destroy_slot as i s).1.nodes, x ∈ s.nodes) ∧
    (∀ x ∈ (destroy_slot as i s).1.next, x ∈ s.next) ∧
    (bucket_ok s → bucket_ok (destroy_slot as i s).1) ∧
    (∀ f ∈ (destroy_slot as i s).2, ∃ x ∈ s.nodes, x.as = as ∧ f = frame_kvaddr x.lo) ∧
    (s.lo ≠ 0 → as ≠ 0 → (∀ x ∈ s.nodes, x.as = as) → (destroy_slot as i s).1 = empty_slot i) := by
  by_cases hskip : s.lo = 0 ∨ s.as = 0
  · have e : destroy_slot as i s = (s, []) := by
      unfold destroy_slot
      rw [if_pos hskip]
    rw [e]
    refine ⟨rfl, fun x hx => hx, fun x hx => hx, fun hb => hb, ?_, ?_⟩
    · intro f hf; cases hf
    · intro hlo has hall
      rcases hskip with h | h
      · exact absurd h hlo
      · have hp : (⟨s.hi, s.lo, s.as⟩ : PTE) ∈ s.nodes := by
          rw [nodes_of_occupied s hlo]; exact List.mem_cons_self _ _
        have := hall _ hp
        exact absurd (this.symm.trans h) has
  · have hlo : s.lo ≠ 0 := fun h => hskip (Or.inl h)
    have hnodes := nodes_of_occupied s hlo
    obtain ⟨pre, hpre, hfrees, hcase⟩ := destroy_head_spec as i s.next s.hi s.lo s.as
    rcases hcase with ⟨hcl, hslot, hall⟩ | ⟨hcl, hown, hall⟩
    · have e : destroy_slot as i s = (empty_slot i, pre.map (fun x => frame_kvaddr x.lo)) := by
        unfold destroy_slot
        rw [if_neg hskip]
        simp only [hcl, if_true, hslot, hfrees]
      rw [e, hnodes, hall]
      refine ⟨?_, ?_, ?_, ?_, ?_, ?_⟩
      · rw [empty_slot_nodes, filter_owned_nil as pre hpre]
        rfl
      · intro x hx
        rw [empty_slot_nodes] at hx
        cases hx
      · intro x hx
        cases hx
      · intro _ _
        rfl
      · intro f hf
        obtain ⟨x, hx, hfx⟩ := List.mem_map.mp hf
        exact ⟨x, hx, hpre x hx, hfx.symm⟩
      · intro _ _ _
        rfl
    · have e : destroy_slot as i s
          = ({ (destroy_head as i s.hi s.lo s.as s.next).1 with
               next := (destroy_chain as (destroy_head as i s.hi s.lo s.as s.next).1.next).1 },
             pre.map (fun x => frame_kvaddr x.lo)
               ++ (destroy_chain as (destroy_head as i s.hi s.lo s.as s.next).1.next).2) := by
        unfold destroy_slot
        rw [if_neg hskip]
        simp only [hcl, Bool.false_eq_true, if_false, hfrees]
      obtain ⟨c1, c2, c3⟩ := destroy_chain_spec as _
        (destroy_head as i s.hi s.lo s.as s.next).1.next (Nat.le_refl _)
      generalize destroy_head as i s.hi s.lo s.as s.next = h at e hown hall c1 c2 c3
      have hhd : (⟨h.1.hi, h.1.lo, h.1.as⟩ : PTE) ∈ (⟨s.hi, s.lo, s.as⟩ : PTE) :: s.next := by
        rw [hall]; simp
      have hnx : ∀ x ∈ h.1.next, x ∈ s.next := by
        intro x hx
        cases pre with
        | nil =>
          simp only [List.nil_append, List.cons.injEq] at hall
          rw [hall.2]; exact hx
        | cons p pre2 =>
          simp only [List.cons_append, List.cons.injEq] at hall
          rw [hall.2]
          simp [hx]
      have hhlo : h.1.lo ≠ 0 := by
        rcases List.mem_cons.mp hhd with hp | hp
        · have : h.1.lo = s.lo := congrArg PTE.lo hp
          rw [this]; exact hlo
        · exact hch _ hp
      rw [e, hnodes]
      have hn2 : ({ h.1 with next := (destroy_chain as h.1.next).1 } : HPT).nodes
          = (⟨h.1.hi, h.1.lo, h.1.as⟩ : PTE) :: (destroy_chain as h.1.next).1 := by
        simp [HPT.nodes, hhlo]
      refine ⟨?_, ?_, ?_, ?_, ?_, ?_⟩
      · rw [hn2, hall, List.filter_append, filter_owned_nil as pre hpre, List.nil_append,
          List.filter_cons, List.filter_cons, c1]
      · intro x hx
        rw [hn2] at hx
        rcases List.mem_cons.mp hx with hp | hp
        · rw [hp]; exact hhd
        · exact List.mem_cons_of_mem _ (hnx x (c2 x hp))
      · intro x hx
        exact hnx x (c2 x hx)
      · intro _ hz
        exact absurd hz hhlo
      · intro f hf
        rcases List.mem_append.mp hf with hp | hp
        · obtain ⟨x, hx, hfx⟩ := List.mem_map.mp hp
          refine ⟨x, ?_, hpre x hx, hfx.symm⟩
          rw [hall]; simp [hx]
        · obtain ⟨x, hx, hxa, hfx⟩ := c3 f hp
          exact ⟨x, List.mem_cons_of_mem _ (hnx x hx), hxa, hfx⟩
      · intro _ _ hallA
        exact absurd (hallA _ hhd) hown

theorem foldl_free_kpages (l : List Nat) :
    ∀ st : VMState,
      (l.foldl free_kpages st).page_table = st.page_table ∧
      (l.foldl free_kpages st).hpt_size = st.hpt_size ∧
      (l.foldl free_kpages st).allocated = st.allocated ∧
      (l.foldl free_kpages st).kpages = st.kpages ∧
      (l.foldl free_kpages st).kheap = st.kheap ∧
      (l.foldl free_kpages st).freed = l.reverse ++ st.freed := by
  induction l with
  | nil => intro st; exact ⟨rfl, rfl, rfl, rfl, rfl, rfl⟩
  | cons a rest ih =>
    intro st
    obtain ⟨h1, h2, h3, h4, h5, h6⟩ := ih (free_kpages st a)
    simp only [List.foldl_cons, List.reverse_cons, List.append_assoc, List.singleton_append]
    exact ⟨h1, h2, h3, h4, h5, h6⟩

theorem slot_congr (a b : VMState) (h : a.page_table = b.page_table) (i : Nat) :
    a.slot i = b.slot i := by
  unfold VMState.slot; rw [h]

theorem destroy_slot_default (as i : Nat) :
    (destroy_slot as i ⟨0, 0, 0, []⟩).1 = ⟨0, 0, 0, []⟩ := by
  simp [destroy_slot]

theorem slot_default_of_ge (st : VMState) (i : Nat) (h : st.page_table.length ≤ i) :
    st.slot i = ⟨0, 0, 0, []⟩ := by
  simp [VMState.slot, List.getElem?_eq_none h]

/-- The sweep of `as_destroy` over the slots `0 .. n-1`: each of them is replaced by
what the loop body makes of it, the others and the allocator oracles are untouched,
and the frames freed are those the loop bodies free. -/
theorem destroy_loop_spec (as : Nat) :
    ∀ (n : Nat) (st : VMState),
      (destroy_loop as n st).hpt_size = st.hpt_size ∧
      (destroy_loop as n st).page_table.length = st.page_table.length ∧
      (∀ i, (destroy_loop as n st).slot i
        = if i < n then (destroy_slot as i (st.slot i)).1 else st.slot i) ∧
      (destroy_loop as n st).allocated = st.allocated ∧
      (destroy_loop as n st).kpages = st.kpages ∧
      (destroy_loop as n st).kheap = st.kheap ∧
      ∃ frees, (destroy_loop as n st).freed = frees ++ st.freed ∧
        ∀ f ∈ frees, ∃ i, i < n ∧ f ∈ (destroy_slot as i (st.slot i)).2 := by
  intro n
  induction n with
  | zero =>
    intro st
    refine ⟨rfl, rfl, fun i => by simp [destroy_loop], rfl, rfl, rfl, [], rfl, ?_⟩
    intro f hf; cases hf
  | succ n ih =>
    intro st
    obtain ⟨h1, h2, h3, h4, h5, h6, frees, h7, h8⟩ := ih st
    have hn : (destroy_loop as n st).slot n = st.slot n := by
      rw [h3 n, if_neg (Nat.lt_irrefl n)]
    have e : destroy_loop as (n + 1) st
        = (destroy_slot as n (st.slot n)).2.foldl free_kpages
            ((destroy_loop as n st).setSlot n (destroy_slot as n (st.slot n)).1) := by
      show (destroy_slot as n ((destroy_loop as n st).slot n)).2.foldl free_kpages
            ((destroy_loop as n st).setSlot n
              (destroy_slot as n ((destroy_loop as n st).slot n)).1) = _
      rw [hn]
    obtain ⟨f1, f2, f3, f4, f5, f6⟩ := foldl_free_kpages (destroy_slot as n (st.slot n)).2
      ((destroy_loop as n st).setSlot n (destroy_slot as n (st.slot n)).1)
    rw [e]
    refine ⟨f2.trans h1, ?_, ?_, f3.trans h4, f4.trans h5, f5.trans h6,
      (destroy_slot as n (st.slot n)).2.reverse ++ frees, ?_, ?_⟩
    · rw [f1]
      show ((destroy_loop as n st).page_table.set _ _).length = _
      rw [List.length_set, h2]
    · intro i
      have hs : ((destroy_slot as n (st.slot n)).2.foldl free_kpages
            ((destroy_loop as n st).setSlot n (destroy_slot as n (st.slot n)).1)).slot i
          = ((destroy_loop as n st).setSlot n (destroy_slot as n (st.slot n)).1).slot i :=
        slot_congr _ _ f1 i
      rw [hs, slot_setSlot]
      by_cases hin : i = n
      · subst hin
        rw [if_pos (Nat.lt_succ_self i)]
        by_cases hl : i < (destroy_loop as i st).page_table.length
        · rw [if_pos ⟨rfl, hl⟩]
        · rw [if_neg (fun hc => hl hc.2), hn]
          have hd := slot_default_of_ge st i (by rw [← h2]; exact Nat.le_of_not_lt hl)
          rw [hd, destroy_slot_default]
      · rw [if_neg (fun hc => hin hc.1), h3 i]
        by_cases hlt : i < n
        · rw [if_pos hlt, if_pos (Nat.lt_succ_of_lt hlt)]
        · rw [if_neg hlt, if_neg (by omega)]
    · rw [f6]
      show _ ++ (destroy_loop as n st).freed = _
      rw [h7, List.append_assoc]
    · intro f hf
      rcases List.mem_append.mp hf with hp | hp
      · exact ⟨n, Nat.lt_succ_self n, List.mem_reverse.mp hp⟩
      · obtain ⟨i, hi, hfi⟩ := h8 f hp
        exact ⟨i, Nat.lt_succ_of_lt hi, hfi⟩

theorem slot_mem_or_default (st : VMState) (i : Nat) :
    st.slot i ∈ st.page_table ∨ st.slot i = ⟨0, 0, 0, []⟩ := by
  by_cases h : i < st.page_table.length
  · left
    have : st.slot i = st.page_table[i] := by
      simp [VMState.slot, List.getElem?_eq_getElem h]
    rw [this]
    exact List.getElem_mem h
  · right
    exact slot_default_of_ge st i (Nat.le_of_not_lt h)

theorem chain_occupied_of_table (st : VMState)
    (hch : ∀ s ∈ st.page_table, ∀ n ∈ s.next, n.lo ≠ 0) (i : Nat) :
    ∀ n ∈ (st.slot i).next, n.lo ≠ 0 := by
  rcases slot_mem_or_default st i with h | h
  · exact hch _ h
  · rw [h]
    intro n hn
    cases hn

/-- A fault keeps every property of the table that insertions of occupied tuples
keep. -/
theorem vm_fault_preserves (P : VMState → Prop)
    (hP_eq : ∀ a b : VMState, b.page_table = a.page_table → b.hpt_size = a.hpt_size → P a → P b)
    (hP_ins : ∀ (a : VMState) (hi lo as : Nat), lo ≠ 0 → P a → P (page_table_insert a hi lo as).2)
    (st : VMState) (curproc : Option proc) (faulttype : Int) (faultaddress : Nat)
    (h : P st) : P (vm_fault st curproc faulttype faultaddress).2 := by
  have hlk : ∀ as v mode, P (vm_fault_lookup st as v mode).2 := by
    intro as v mode
    rw [vm_fault_lookup_eq]
    split
    · exact hP_eq st _ rfl rfl h
    · unfold vm_fault_alloc
      simp only []
      obtain ⟨t1, t2⟩ := alloc_kpages_table st ONE_PAGE
      split
      · exact hP_eq st _ t1 t2 h
      · have hb : ∀ (a l : Nat), P (bzero (alloc_kpages st ONE_PAGE).2 a l) :=
          fun a l => hP_eq st _ ((bzero_table _ a l).1.trans t1) ((bzero_table _ a l).2.trans t2) h
        have hlo : KVADDR_TO_PADDR (alloc_kpages st ONE_PAGE).1 ||| fault_perms mode ≠ 0 :=
          lor_ne_zero_of_testBit _ _ 9 (fault_perms_valid mode)
        have hi := hP_ins
          (bzero (alloc_kpages st ONE_PAGE).2
            (PADDR_TO_KVADDR (KVADDR_TO_PADDR (alloc_kpages st ONE_PAGE).1)) (1 * PAGE_SIZE))
          v (KVADDR_TO_PADDR (alloc_kpages st ONE_PAGE).1 ||| fault_perms mode) as hlo (hb _ _)
        split
        · refine hP_eq _ _ ?_ ?_ hi <;> rfl
        · refine hP_eq _ _ ?_ ?_ hi <;> rfl
  unfold vm_fault
  simp only []
  split
  · exact h
  split
  · exact h
  split
  · exact h
  split
  · exact h
  split
  · exact h
  · split
    · exact h
    · split
      · exact h
      · exact hlk _ _ _

theorem copy_lo_ne_zero (page_addr lo : Nat) :
    page_addr ||| (lo &&& CTRL_BIT_MASK ||| TLBLO_VALID) ≠ 0 := by
  apply lor_ne_zero_of_testBit _ _ 9
  rw [Nat.testBit_or]
  have : TLBLO_VALID.testBit 9 = true := by decide
  rw [this, Bool.or_true]

theorem copy_node_preserves (P : VMState → Prop)
    (hP_eq : ∀ a b : VMState, b.page_table = a.page_table → b.hpt_size = a.hpt_size → P a → P b)
    (hP_ins : ∀ (a : VMState) (hi lo as : Nat), lo ≠ 0 → P a → P (page_table_insert a hi lo as).2)
    (st : VMState) (newas hi lo : Nat) (r : Nat × VMState)
    (hr : copy_node st newas hi lo = Res.ok r) (h : P st) : P r.2 := by
  obtain ⟨t1, t2⟩ := alloc_kpages_table st 1
  rw [copy_node_eq] at hr
  by_cases hz : KVADDR_TO_PADDR (alloc_kpages st 1).1 = 0
  · rw [if_pos hz] at hr
    rw [← Res.ok.inj hr]
    exact hP_eq st _ t1 t2 h
  · rw [if_neg hz] at hr
    by_cases hn : PADDR_TO_KVADDR (KVADDR_TO_PADDR (alloc_kpages st 1).1) = 0
    · rw [if_pos hn] at hr
      cases hr
    · rw [if_neg hn] at hr
      rw [← Res.ok.inj hr]
      have hm : ∀ (d s l : Nat), P (memmove (alloc_kpages st 1).2 d s l) :=
        fun d s l => hP_eq st _
          ((memmove_frame _ d s l).2.1.trans t1) ((memmove_frame _ d s l).2.2.trans t2) h
      exact hP_ins _ _ _ _ (copy_lo_ne_zero _ _) (hm _ _ _)

theorem copy_then_preserves (P : VMState → Prop) (x : Res (Nat × VMState))
    (next : VMState → Res (Nat × VMState)) (r : Nat × VMState)
    (hx : ∀ r1, x = Res.ok r1 → P r1.2)
    (hn : ∀ r1 r2, x = Res.ok r1 → P r1.2 → next r1.2 = Res.ok r2 → P r2.2)
    (h : copy_then x next = Res.ok r) : P r.2 := by
  unfold copy_then at h
  cases x with
  | ok r1 =>
    simp only [] at h
    by_cases hr : r1.1 ≠ 0
    · rw [if_pos hr] at h
      rw [← Res.ok.inj h]
      exact hx r1 rfl
    · rw [if_neg hr] at h
      exact hn r1 r rfl (hx r1 rfl) h
  | null_deref => cases h
  | no_fuel => cases h

theorem copy_chain_preserves (P : VMState → Prop)
    (hP_eq : ∀ a b : VMState, b.page_table = a.page_table → b.hpt_size = a.hpt_size → P a → P b)
    (hP_ins : ∀ (a : VMState) (hi lo as : Nat), lo ≠ 0 → P a → P (page_table_insert a hi lo as).2)
    (old newas i : Nat) :
    ∀ (fuel k : Nat) (st : VMState) (r : Nat × VMState),
      copy_chain old newas i fuel k st = Res.ok r → P st → P r.2 := by
  intro fuel
  induction fuel with
  | zero => intro k st r h; cases h
  | succ fuel ih =>
    intro k st r h hp
    rw [copy_chain_succ] at h
    cases hg : (st.slot i).next.get? k with
    | none =>
      rw [hg] at h
      rw [← Res.ok.inj h]
      exact hp
    | some curr =>
      rw [hg] at h
      simp only [] at h
      by_cases ho : curr.as = old
      · rw [if_pos ho] at h
        exact copy_then_preserves P (copy_node st newas curr.hi curr.lo)
          (copy_chain old newas i fuel (k + 1)) r
          (fun r1 h1 => copy_node_preserves P hP_eq hP_ins st newas curr.hi curr.lo r1 h1 hp)
          (fun r1 r2 _ hp1 h2 => ih (k + 1) r1.2 r2 h2 hp1) h
      · rw [if_neg ho] at h
        exact ih _ _ _ h hp

theorem copy_slot_preserves (P : VMState → Prop)
    (hP_eq : ∀ a b : VMState, b.page_table = a.page_table → b.hpt_size = a.hpt_size → P a → P b)
    (hP_ins : ∀ (a : VMState) (hi lo as : Nat), lo ≠ 0 → P a → P (page_table_insert a hi lo as).2)
    (old newas i : Nat) (st : VMState) (r : Nat × VMState)
    (h : copy_slot old newas i st = Res.ok r) (hp : P st) : P r.2 := by
  unfold copy_slot at h
  by_cases h0 : (st.slot i).lo = 0 ∨ (st.slot i).as = 0
  · rw [if_pos h0] at h
    rw [← Res.ok.inj h]
    exact hp
  · rw [if_neg h0] at h
    by_cases ho : (st.slot i).as = old
    · rw [if_pos ho] at h
      exact copy_then_preserves P (copy_node st newas (st.slot i).hi (st.slot i).lo)
        (fun st1 => copy_chain old newas i (copy_fuel st1 i) 0 st1) r
        (fun r1 h1 =>
          copy_node_preserves P hP_eq hP_ins st newas (st.slot i).hi (st.slot i).lo r1 h1 hp)
        (fun r1 r2 _ hp1 h2 =>
          copy_chain_preserves P hP_eq hP_ins old newas i (copy_fuel r1.2 i) 0 r1.2 r2 h2 hp1) h
    · rw [if_neg ho] at h
      exact copy_chain_preserves P hP_eq hP_ins old newas i (copy_fuel st i) 0 st r h hp

theorem copy_loop_preserves (P : VMState → Prop)
    (hP_eq : ∀ a b : VMState, b.page_table = a.page_table → b.hpt_size = a.hpt_size → P a → P b)
    (hP_ins : ∀ (a : VMState) (hi lo as : Nat), lo ≠ 0 → P a → P (page_table_insert a hi lo as).2)
    (old newas : Nat) :
    ∀ (n : Nat) (st : VMState) (r : Nat × VMState),
      copy_loop old newas n st = Res.ok r → P st → P r.2 := by
  intro n
  induction n with
  | zero => intro st r h hp; rw [← Res.ok.inj h]; exact hp
  | succ n ih =>
    intro st r h hp
    have h2 : copy_then (copy_loop old newas n st) (copy_slot old newas n) = Res.ok r := h
    exact copy_then_preserves P (copy_loop old newas n st) (copy_slot old newas n) r
      (fun r1 h1 => ih st r1 h1 hp)
      (fun r1 r2 _ hp1 h3 => copy_slot_preserves P hP_eq hP_ins old newas n r1.2 r2 h3 hp1) h2

/-- A copy that returns keeps every property of the table that insertions of occupied
tuples and destructions keep. -/
theorem as_copy_preserves (P : VMState → Prop)
    (hP_eq : ∀ a b : VMState, b.page_table = a.page_table → b.hpt_size = a.hpt_size → P a → P b)
    (hP_ins : ∀ (a : VMState) (hi lo as : Nat), lo ≠ 0 → P a → P (page_table_insert a hi lo as).2)
    (hP_des : ∀ (a : VMState) (as : Nat) (obj : addrspace), P a → P (as_destroy a as obj))
    (st : VMState) (old : Nat) (oldobj : addrspace) (r : CopyResult)
    (h : as_copy st old oldobj = Res.ok r) (hp : P st) : P r.st := by
  obtain ⟨k1, k2⟩ := kmalloc_table st
  obtain ⟨c1, c2⟩ := copy_regions_table oldobj.head (as_create st).2 (as_create st).1.2.head
  have hbase : P (copy_regions (as_create st).2 oldobj.head (as_create st).1.2.head).2 :=
    hP_eq st _ (c2.trans k2) (c1.trans k1) hp
  unfold as_copy at h
  simp only [] at h
  split at h
  · cases h
  · split at h
    · rw [← Res.ok.inj h]
      exact hP_des _ (as_create st).1.1
        ⟨(copy_regions (as_create st).2 oldobj.head (as_create st).1.2.head).1.2⟩ hbase
    · cases hl : copy_loop old (as_create st).1.1
          (copy_regions (as_create st).2 oldobj.head (as_create st).1.2.head).2.hpt_size
          (copy_regions (as_create st).2 oldobj.head (as_create st).1.2.head).2 with
      | ok r1 =>
        rw [hl] at h
        rw [← Res.ok.inj h]
        exact copy_loop_preserves P hP_eq hP_ins old (as_create st).1.1 _ _ r1 hl hbase
      | null_deref => rw [hl] at h; cases h
      | no_fuel => rw [hl] at h; cases h

/-- What an insertion does to the target bucket: nothing, or it fills the empty
primary entry, or it appends one node to the chain of an occupied bucket. -/
theorem page_table_insert_target (st : VMState) (hi lo as : Nat) :
    (page_table_insert st hi lo as).2.hpt_size = st.hpt_size ∧
    ((page_table_insert st hi lo as).2.slot (hpt_index st as hi) = st.slot (hpt_index st as hi) ∨
     (page_table_insert st hi lo as).2.slot (hpt_index st as hi) = ⟨hi, lo, as, []⟩ ∨
     ((st.slot (hpt_index st as hi)).lo ≠ 0 ∧
      (page_table_insert st hi lo as).2.slot (hpt_index st as hi)
        = { st.slot (hpt_index st as hi) with
            next := (st.slot (hpt_index st as hi)).next ++ [⟨hi, lo, as⟩] })) := by
  obtain ⟨k1, k2⟩ := kmalloc_table st
  have hs : ∀ k, (kmalloc st).2.slot k = st.slot k := fun k => slot_congr _ _ k2 k
  refine ⟨(page_table_insert_extends st hi lo as).1, ?_⟩
  unfold page_table_insert
  simp only []
  split
  · show (st.setSlot _ _).slot _ = _ ∨ (st.setSlot _ _).slot _ = _ ∨ _ ∧ (st.setSlot _ _).slot _ = _
    rw [slot_setSlot]
    split
    · exact Or.inr (Or.inl rfl)
    · exact Or.inl rfl
  · rename_i hz
    split
    · rename_i hnx
      split
      · exact Or.inl (hs _)
      · show ((kmalloc st).2.setSlot _ _).slot _ = _ ∨ ((kmalloc st).2.setSlot _ _).slot _ = _ ∨
          _ ∧ ((kmalloc st).2.setSlot _ _).slot _ = _
        rw [slot_setSlot]
        split
        · refine Or.inr (Or.inr ⟨hz, ?_⟩)
          rw [hs, hnx]
          rfl
        · exact Or.inl (hs _)
    · split
      · exact Or.inl (hs _)
      · show ((kmalloc st).2.setSlot _ _).slot _ = _ ∨ ((kmalloc st).2.setSlot _ _).slot _ = _ ∨
          _ ∧ ((kmalloc st).2.setSlot _ _).slot _ = _
        rw [slot_setSlot]
        split
        · refine Or.inr (Or.inr ⟨hz, ?_⟩)
          rw [hs]
        · exact Or.inl (hs _)

theorem hpt_inv_eq (a b : VMState) (h1 : b.page_table = a.page_table)
    (h2 : b.hpt_size = a.hpt_size) (h : hpt_inv a) : hpt_inv b := by
  intro i
  have hs : b.slot i = a.slot i := slot_congr _ _ h1 i
  have hx : ∀ as hi, hpt_index b as hi = hpt_index a as hi := by
    intro as hi; unfold hpt_index; rw [h2]
  rw [hs]
  refine ⟨(h i).1, (h i).2.1, fun n hn => ?_⟩
  rw [hx]
  exact (h i).2.2 n hn

theorem hpt_inv_of_empty (st : VMState)
    (h : ∀ i, (st.slot i).lo = 0 ∧ (st.slot i).next = []) : hpt_inv st := by
  intro i
  obtain ⟨h1, h2⟩ := h i
  refine ⟨fun _ => h2, ?_, ?_⟩
  · rw [h2]; intro n hn; cases hn
  · unfold HPT.nodes
    rw [if_pos h1, h2]
    intro n hn; cases hn

theorem hpt_inv_boot (st0 : VMState) (ramsize : Nat) : hpt_inv (vm_bootstrap st0 ramsize) := by
  apply hpt_inv_of_empty
  intro i
  rcases slot_mem_or_default (vm_bootstrap st0 ramsize) i with h | h
  · have hm : ∀ s ∈ (vm_bootstrap st0 ramsize).page_table, s.lo = 0 ∧ s.next = [] := by
      unfold vm_bootstrap
      simp only []
      split
      · intro s hs; cases hs
      · intro s hs
        obtain ⟨k, _, hk⟩ := List.mem_map.1 hs
        rw [← hk]
        exact ⟨rfl, rfl⟩
    exact hm _ h
  · rw [h]; exact ⟨rfl, rfl⟩

theorem hpt_inv_insert (st : VMState) (hi lo as : Nat) (hlo : lo ≠ 0) (h : hpt_inv st) :
    hpt_inv (page_table_insert st hi lo as).2 := by
  obtain ⟨hsz, htgt⟩ := page_table_insert_target st hi lo as
  have hx : ∀ a v, hpt_index (page_table_insert st hi lo as).2 a v = hpt_index st a v := by
    intro a v; unfold hpt_index; rw [hsz]
  intro i
  by_cases hi2 : i = hpt_index st as hi
  · subst hi2
    rcases htgt with e | e | ⟨hz, e⟩
    · rw [e]
      refine ⟨(h _).1, (h _).2.1, fun n hn => ?_⟩
      rw [hx]; exact (h _).2.2 n hn
    · rw [e]
      refine ⟨fun _ => rfl, (fun n hn => by cases hn), fun n hn => ?_⟩
      rw [hx]
      have hn2 : n = ⟨hi, lo, as⟩ := by
        simpa [HPT.nodes, hlo] using hn
      rw [hn2]
    · rw [e]
      refine ⟨fun hc => absurd hc hz, fun n hn => ?_, fun n hn => ?_⟩
      · rcases List.mem_append.1 hn with hn1 | hn1
        · exact (h _).2.1 n hn1
        · rw [List.mem_singleton.1 hn1]; exact hlo
      · rw [hx]
        have hnodes : ({ st.slot (hpt_index st as hi) with
            next := (st.slot (hpt_index st as hi)).next ++ [⟨hi, lo, as⟩] } : HPT).nodes
            = (st.slot (hpt_index st as hi)).nodes ++ [⟨hi, lo, as⟩] := by
          unfold HPT.nodes
          exact (List.append_assoc _ _ _).symm
        rw [hnodes] at hn
        have hn2 : n ∈ (st.slot (hpt_index st as hi)).nodes ∨ n = ⟨hi, lo, as⟩ := by
          rcases List.mem_append.1 hn with hn1 | hn1
          · exact Or.inl hn1
          · exact Or.inr (List.mem_singleton.1 hn1)
        rcases hn2 with hn2 | hn2
        · exact (h _).2.2 n hn2
        · rw [hn2]
  · rw [page_table_insert_other st hi lo as i hi2]
    refine ⟨(h i).1, (h i).2.1, fun n hn => ?_⟩
    rw [hx]; exact (h i).2.2 n hn

theorem hpt_inv_destroy (st : VMState) (as : Nat) (obj : addrspace) (h : hpt_inv st) :
    hpt_inv (as_destroy st as obj) := by
  obtain ⟨hsz, _, hslot, _⟩ := destroy_loop_spec as st.hpt_size st
  have hx : ∀ a v, hpt_index (as_destroy st as obj) a v = hpt_index st a v := by
    intro a v; unfold hpt_index; exact congrArg (fun k => (a ^^^ (v >>> 12)) % k) hsz
  intro i
  have hsl : (as_destroy st as obj).slot i
      = if i < st.hpt_size then (destroy_slot as i (st.slot i)).1 else st.slot i := hslot i
  rw [hsl]
  split
  · obtain ⟨_, hn, hc, hb, _⟩ := destroy_slot_spec as i (st.slot i) (h i).2.1
    refine ⟨hb (h i).1, fun n hn2 => (h i).2.1 n (hc n hn2), fun n hn2 => ?_⟩
    rw [hx]; exact (h i).2.2 n (hn n hn2)
  · refine ⟨(h i).1, (h i).2.1, fun n hn => ?_⟩
    rw [hx]; exact (h i).2.2 n hn

/-- Every state the operations reach satisfies the structural invariant. -/
theorem hpt_inv_of_Reach (st : VMState) (h : Reach st) : hpt_inv st := by
  induction h with
  | boot st0 ramsize => exact hpt_inv_boot st0 ramsize
  | env st st2 _ h1 h2 ih => exact hpt_inv_eq st st2 h1 h2 ih
  | insert st hi lo as _ hlo ih => exact hpt_inv_insert st hi lo as hlo ih
  | fault st curproc ft fa _ ih =>
    exact vm_fault_preserves hpt_inv hpt_inv_eq hpt_inv_insert st curproc ft fa ih
  | copy st old oldobj r _ hr ih =>
    exact as_copy_preserves hpt_inv hpt_inv_eq hpt_inv_insert hpt_inv_destroy st old oldobj r hr ih
  | destroy st as obj _ ih => exact hpt_inv_destroy st as obj ih

/-- The bucket walk of the fault handler finds a node whenever the bucket holds an
occupied node for the page. -/
theorem bucket_lookup_finds (s : HPT) (v : Nat) (hb : bucket_ok s) (n : PTE)
    (hn : n ∈ s.nodes) (hv : n.hi = v) (hlo : n.lo ≠ 0) :
    ∃ e, bucket_lookup s v = some e ∧ e.hi = v ∧ e.lo ≠ 0 := by
  unfold bucket_lookup
  by_cases hp : s.hi = v ∧ s.lo ≠ 0
  · rw [if_pos hp]
    exact ⟨_, rfl, hp.1, hp.2⟩
  · rw [if_neg hp]
    have hnx : n ∈ s.next := by
      unfold HPT.nodes at hn
      rcases List.mem_append.1 hn with h1 | h1
      · by_cases hz : s.lo = 0
        · rw [if_pos hz] at h1; cases h1
        · rw [if_neg hz] at h1
          have e := List.mem_singleton.1 h1
          exact absurd ⟨by rw [← hv, e], hz⟩ hp
      · exact h1
    have hne : s.next ≠ [] := List.ne_nil_of_mem hnx
    have hz : s.lo ≠ 0 := fun hc => hne (hb hc)
    rw [if_pos ⟨hz, hne⟩]
    have hfind : ∀ (chain : List PTE), n ∈ chain →
        ∃ e, chain_find chain v = some e ∧ e.hi = v ∧ e.lo ≠ 0 := by
      intro chain
      induction chain with
      | nil => intro hm; cases hm
      | cons c rest ih =>
        intro hm
        unfold chain_find
        by_cases hc : c.hi = v ∧ c.lo ≠ 0
        · rw [if_pos hc]; exact ⟨c, rfl, hc.1, hc.2⟩
        · rw [if_neg hc]
          rcases List.mem_cons.1 hm with e | hm2
          · rw [← e] at hc; exact absurd ⟨hv, hlo⟩ hc
          · exact ih hm2
    exact hfind s.next hnx

/-! ## Claims -/

set_option maxRecDepth 20000

/-- C1 (defect in the code). From boot, B faults once and A twice, so that bucket 16
holds the entry of B followed by a chain of two nodes of A. `as_destroy` of A unlinks
the first chain node and steps over its successor: the node of A for page
`0x00800000` is still in the table and only one of the two frames of A was freed. -/
theorem C1_as_destroy_skips_consecutive_node :
    (stBAA [] []).slot 16
      = ⟨0x00430000, 0x00100200, asB,
          [⟨0x00400000, 0x00101200, asA⟩, ⟨0x00800000, 0x00102600, asA⟩]⟩ ∧
    (as_destroy (stBAA [] []) asA objA).slot 16
      = ⟨0x00430000, 0x00100200, asB, [⟨0x00800000, 0x00102600, asA⟩]⟩ ∧
    owned_nodes (as_destroy (stBAA [] []) asA objA) asA = [⟨0x00800000, 0x00102600, asA⟩] ∧
    (as_destroy (stBAA [] []) asA objA).allocated = [0x80102000, 0x80101000, 0x80100000] ∧
    (as_destroy (stBAA [] []) asA objA).freed = [0x80101000] := by
  decide

/-- C2 (defect in the code). B has a resident node for page `0x00430000` in bucket 16;
C, whose pointer hashes that page to the same bucket, owns no node. A write fault of C
on that page takes the hit path: it returns 0 without allocating (the frame oracle is
even empty), leaves the table as it is, and loads the frame `0x00100000` of B into
the TLB with `DIRTY` and `VALID` set. -/
theorem C2_vm_fault_hit_ignores_owner :
    (stB [] []).slot 16 = ⟨0x00430000, 0x00100200, asB, []⟩ ∧
    hpt_index (stB [] []) asC 0x00430000 = 16 ∧
    owned_nodes (stB [] []) asC = [] ∧
    (stB [] []).kpages = [] ∧
    (vm_fault (stB [] []) (proc_of asC objC) VM_FAULT_WRITE 0x00430def).1 = 0 ∧
    (vm_fault (stB [] []) (proc_of asC objC) VM_FAULT_WRITE 0x00430def).2.tlb
      = [(0x00430000, 0x00100600), (0x00430000, 0x00100200)] ∧
    (vm_fault (stB [] []) (proc_of asC objC) VM_FAULT_WRITE 0x00430def).2.allocated
      = [0x80100000] ∧
    (vm_fault (stB [] []) (proc_of asC objC) VM_FAULT_WRITE 0x00430def).2.page_table
      = (stB [] []).page_table := by
  decide

/-- C3 (defect in the code). First run: B has one resident page and the allocation of
the overflow node fails inside `page_table_insert`; `as_copy` drops that result and
returns 0, and the frame just allocated is neither referenced by the table nor
freed. Second run: A has two resident pages and the second frame allocation fails;
the failure test comes after the address conversion and does not fire, so the call
does not return `ENOMEM` but copies through the `NULL` address. -/
theorem C3_as_copy_not_atomic :
    (as_copy (stB [0x80103000] [asC, 0x80070000]) asB objB).map
        (fun r => (r.err, r.st.allocated, r.st.freed, owned_nodes r.st asC, r.st.kheap))
      = Res.ok (0, [0x80103000, 0x80100000], [], [], []) ∧
    (as_copy (stBAA [0x80103000, 0] [0x80040030, 0x80070000, 0x80070010, 0x80070020])
        asA objA).map (fun r => r.err)
      = Res.null_deref ∧
    (alloc_kpages (init_state [0] []) 1).1 = 0 ∧
    KVADDR_TO_PADDR 0 = 0x80000000 ∧
    PADDR_TO_KVADDR 0x80000000 = 0 := by
  decide

/-- C4 (defect in the code, shared with C3). B has the resident node
`(0x00430000, 0x00100200)`; during `as_copy` the overflow node for the copy cannot be
allocated and the result of `page_table_insert` is dropped: the call returns 0 and
stores the new pointer, yet the table holds no node owned by the new address space. -/
theorem C4_as_copy_returns_zero_without_node :
    owned_nodes (stB [0x80103000] [asC, 0x80070000]) asB = [⟨0x00430000, 0x00100200, asB⟩] ∧
    (as_copy (stB [0x80103000] [asC, 0x80070000]) asB objB).map
        (fun r => (r.err, r.ret, owned_nodes r.st asC, owned_nodes r.st asB))
      = Res.ok (0, some asC, [], [⟨0x00430000, 0x00100200, asB⟩]) := by
  decide

/-- C5. `vm_fault` rejects invalid requests before it reads the process, the region
list or the page table, in this order: a fault address whose page base is 0 (any byte
address below `PAGE_SIZE`) gives `EFAULT`; else a page base at or above `USERSTACK`
gives `EINVAL`; else the fault type `READONLY` gives `EFAULT`; else a fault type
other than `READ` and `WRITE` gives `EINVAL`. In each case the state returned is the
state given: table, allocator and logs are untouched (the region list is an input
that `vm_fault` never returns changed). -/
theorem C5_vm_fault_rejects_invalid (st : VMState) (curproc : Option proc) (faulttype : Int)
    (faultaddress : Nat) (h32 : faultaddress < 2 ^ 32) :
    (page_of faultaddress = 0 ↔ faultaddress < PAGE_SIZE) ∧
    (page_of faultaddress = 0 → vm_fault st curproc faulttype faultaddress = (EFAULT, st)) ∧
    (page_of faultaddress ≠ 0 → USERSTACK ≤ page_of faultaddress →
      vm_fault st curproc faulttype faultaddress = (EINVAL, st)) ∧
    (page_of faultaddress ≠ 0 → page_of faultaddress < USERSTACK →
      faulttype = VM_FAULT_READONLY →
      vm_fault st curproc faulttype faultaddress = (EFAULT, st)) ∧
    (page_of faultaddress ≠ 0 → page_of faultaddress < USERSTACK →
      faulttype ≠ VM_FAULT_READONLY → faulttype ≠ VM_FAULT_READ → faulttype ≠ VM_FAULT_WRITE →
      vm_fault st curproc faulttype faultaddress = (EINVAL, st)) := by
  refine ⟨?_, ?_, ?_, ?_, ?_⟩
  · unfold page_of
    rw [land_PAGE_FRAME faultaddress h32]
    have hP : PAGE_SIZE = 4096 := rfl
    rw [hP]
    omega
  · intro h0
    unfold page_of at h0
    simp [vm_fault, h0]
  · intro h0 hs
    unfold page_of at h0 hs
    simp [vm_fault, h0, hs]
  · intro h0 hs hro
    unfold page_of at h0 hs
    simp [vm_fault, h0, Nat.not_le.mpr hs, hro]
  · intro h0 hs hro hr hw
    unfold page_of at h0 hs
    simp [vm_fault, h0, Nat.not_le.mpr hs, hro, hr, hw]

/-- Witness of C5: one fault for each of the four rejections, on a booted machine. -/
theorem C5_witness :
    vm_fault (boot128 [] []) (proc_of asA objA) VM_FAULT_READ 0x00000abc
      = (EFAULT, boot128 [] []) ∧
    vm_fault (boot128 [] []) (proc_of asA objA) VM_FAULT_READ 0x80000000
      = (EINVAL, boot128 [] []) ∧
    vm_fault (boot128 [] []) (proc_of asA objA) VM_FAULT_READONLY 0x00400abc
      = (EFAULT, boot128 [] []) ∧
    vm_fault (boot128 [] []) (proc_of asA objA) 7 0x00400abc
      = (EINVAL, boot128 [] []) :=
  ⟨(C5_vm_fault_rejects_invalid (boot128 [] []) (proc_of asA objA) VM_FAULT_READ 0x00000abc
      (by decide)).2.1 (by decide),
   (C5_vm_fault_rejects_invalid (boot128 [] []) (proc_of asA objA) VM_FAULT_READ 0x80000000
      (by decide)).2.2.1 (by decide) (by decide),
   (C5_vm_fault_rejects_invalid (boot128 [] []) (proc_of asA objA) VM_FAULT_READONLY 0x00400abc
      (by decide)).2.2.2.1 (by decide) (by decide) rfl,
   (C5_vm_fault_rejects_invalid (boot128 [] []) (proc_of asA objA) 7 0x00400abc
      (by decide)).2.2.2.2 (by decide) (by decide) (by decide) (by decide) (by decide)⟩

/-- C6 (defect in the code). Bucket 16 is occupied by B; A faults on a page of the same
bucket. With no frame left the fault returns `ENOMEM`. With a frame but no memory for
the overflow node, `page_table_insert` returns `ENOMEM`, the frame is freed and the
table is unchanged, but `vm_fault` returns `EFAULT`. -/
theorem C6_vm_fault_insert_failure_returns_EFAULT :
    (vm_fault (stB [] []) (proc_of asA objA) VM_FAULT_READ 0x00400abc).1 = ENOMEM ∧
    (vm_fault (stB [] []) (proc_of asA objA) VM_FAULT_READ 0x00400abc).2.page_table
      = (stB [] []).page_table ∧
    (page_table_insert (stB [] []) 0x00400000 0x00101200 asA).1 = ENOMEM ∧
    (vm_fault (stB [0x80101000] []) (proc_of asA objA) VM_FAULT_READ 0x00400abc).1 = EFAULT ∧
    EFAULT ≠ ENOMEM ∧
    (vm_fault (stB [0x80101000] []) (proc_of asA objA) VM_FAULT_READ 0x00400abc).2.allocated
      = [0x80101000, 0x80100000] ∧
    (vm_fault (stB [0x80101000] []) (proc_of asA objA) VM_FAULT_READ 0x00400abc).2.freed
      = [0x80101000] ∧
    (vm_fault (stB [0x80101000] []) (proc_of asA objA) VM_FAULT_READ 0x00400abc).2.page_table
      = (stB [0x80101000] []).page_table := by
  decide

/-- C7. Demand allocation. Let A be the current address space and let a `READ` or
`WRITE` fault hit an address whose page `v` (`0 < v < USERSTACK`) lies in a region
`R` of A, the regions obeying the data-model invariant and all regions that cover
`v` having the mode of `R` (as they do when regions do not overlap). If bucket
`(A XOR (v >> 12)) mod H` has no node for `v`, the frame allocation gives the
kernel-virtual address `kv` and
the overflow node, when one is needed, can be allocated, then `vm_fault` returns 0,
consumes exactly that one frame, the `PAGE_SIZE` bytes at `kv` are zero, the node
sequence of the bucket is the old one followed by `(v, f | ctrl, A)` with `f` the
physical address of `kv`, every other slot is unchanged, nothing is freed, and
`(v, f | ctrl)` is written to the TLB. Here
`ctrl` has `VALID` set and has `DIRTY` set exactly when `R.mode` includes `PF_W`,
whatever the fault type. -/
theorem C7_vm_fault_demand_allocation (st : VMState) (as : Nat) (obj : addrspace)
    (faulttype : Int) (faultaddress : Nat) (R : mem_region) (kv : Nat) (rest : List Nat)
    (htab : table_ok st)
    (hty : faulttype = VM_FAULT_READ ∨ faulttype = VM_FAULT_WRITE)
    (hpos : 0 < page_of faultaddress) (hlt : page_of faultaddress < USERSTACK)
    (hwf : ∀ r ∈ obj.head, region_wf r)
    (hR : R ∈ obj.head) (hcov : covers R (page_of faultaddress))
    (hmode : ∀ r ∈ obj.head, covers r (page_of faultaddress) → r.mode = R.mode)
    (hb : bucket_ok (st.slot (hpt_index st as (page_of faultaddress))))
    (hmiss : ∀ n ∈ (st.slot (hpt_index st as (page_of faultaddress))).nodes,
      n.hi ≠ page_of faultaddress)
    (hkp : st.kpages = kv :: rest) (hkv : kv ≠ 0) (hkv32 : kv < 2 ^ 32)
    (hkm : (st.slot (hpt_index st as (page_of faultaddress))).lo ≠ 0 →
      ∃ p rest2, st.kheap = p :: rest2 ∧ p ≠ 0) :
    (vm_fault st (some ⟨some (as, obj)⟩) faulttype faultaddress).1 = 0 ∧
    (vm_fault st (some ⟨some (as, obj)⟩) faulttype faultaddress).2.kpages = rest ∧
    (vm_fault st (some ⟨some (as, obj)⟩) faulttype faultaddress).2.allocated
      = kv :: st.allocated ∧
    (vm_fault st (some ⟨some (as, obj)⟩) faulttype faultaddress).2.freed = st.freed ∧
    (∀ a, kv ≤ a → a < kv + PAGE_SIZE →
      (vm_fault st (some ⟨some (as, obj)⟩) faulttype faultaddress).2.ram a = 0) ∧
    ((vm_fault st (some ⟨some (as, obj)⟩) faulttype faultaddress).2.slot
        (hpt_index st as (page_of faultaddress))).nodes
      = (st.slot (hpt_index st as (page_of faultaddress))).nodes
        ++ [⟨page_of faultaddress, KVADDR_TO_PADDR kv ||| derived_ctrl R.mode, as⟩] ∧
    (∀ j, j ≠ hpt_index st as (page_of faultaddress) →
      (vm_fault st (some ⟨some (as, obj)⟩) faulttype faultaddress).2.slot j = st.slot j) ∧
    (vm_fault st (some ⟨some (as, obj)⟩) faulttype faultaddress).2.tlb
      = (page_of faultaddress, KVADDR_TO_PADDR kv ||| derived_ctrl R.mode) :: st.tlb ∧
    (vm_fault st (some ⟨some (as, obj)⟩) faulttype faultaddress).2.hpt_size = st.hpt_size ∧
    (vm_fault st (some ⟨some (as, obj)⟩) faulttype faultaddress).2.page_table.length
      = st.page_table.length ∧
    derived_ctrl R.mode &&& TLBLO_VALID = TLBLO_VALID ∧
    (derived_ctrl R.mode &&& TLBLO_DIRTY = TLBLO_DIRTY ↔ R.mode &&& PF_W = PF_W) := by
  obtain ⟨r, hf, hr, hrc⟩ := find_region_some obj.head (page_of faultaddress) R hwf hR hcov
  have hm : r.mode = R.mode := hmode r hr hrc
  rw [vm_fault_valid_request st as obj faulttype faultaddress r hty hpos hlt hf,
    vm_fault_lookup_miss st as (page_of faultaddress) r.mode hmiss, hm]
  have h := vm_fault_alloc_success st as (page_of faultaddress) (fault_perms R.mode) kv rest
    htab (fault_perms_valid R.mode) hb hkp hkv hkm
  rw [fault_perms_eq_derived_ctrl] at h ⊢
  rw [kseg0_roundtrip kv hkv32] at h
  obtain ⟨a1, a2, a3, a4, a5, a6, a7, a8, a9, a10⟩ := h
  exact ⟨a1, a2, a3, a4, a5, a6, a7, a8, a9, a10, derived_ctrl_bits R.mode⟩

/-- Witness of C7: scenario S2, the first read fault of A on `0x00400abc` after boot;
the node `(0x00400000, 0x00100200, A)` lands in bucket 16 with `DIRTY` clear. -/
theorem C7_witness :
    (vm_fault (boot128 [0x80100000] []) (proc_of asA objA) VM_FAULT_READ 0x00400abc).1 = 0 ∧
    ((vm_fault (boot128 [0x80100000] []) (proc_of asA objA) VM_FAULT_READ 0x00400abc).2.slot
        (hpt_index (boot128 [0x80100000] []) asA (page_of 0x00400abc))).nodes
      = ((boot128 [0x80100000] []).slot
          (hpt_index (boot128 [0x80100000] []) asA (page_of 0x00400abc))).nodes
        ++ [⟨page_of 0x00400abc, KVADDR_TO_PADDR 0x80100000 ||| derived_ctrl 5, asA⟩] ∧
    hpt_index (boot128 [0x80100000] []) asA (page_of 0x00400abc) = 16 ∧
    page_of 0x00400abc = 0x00400000 ∧
    KVADDR_TO_PADDR 0x80100000 ||| derived_ctrl 5 = 0x00100200 :=
  have h := C7_vm_fault_demand_allocation (boot128 [0x80100000] []) asA objA VM_FAULT_READ
    0x00400abc ⟨0x00400000, 1, 5, 5⟩ 0x80100000 []
    (by decide) (Or.inl rfl) (by decide) (by decide) (by decide) (by decide) (by decide)
    (by decide) (by decide) (by decide) (by decide) (by decide) (by decide)
    (fun hne => absurd (by decide) hne)
  ⟨h.1, h.2.2.2.2.2.1, by decide, by decide, by decide⟩

/-- C8. A repeated fault is served from the page table. Let a fault of address space A
on page `v` return 0 and leave the state `st1`, and let `st2` be any state whose page
table extends that of `st1` (nothing was removed: no destroy intervened; `st2 = st1`
is the immediate repetition), in which the region walk of A still finds a region `R2`
for `v`. Then a `READ` or `WRITE` fault of A on any address of page `v` in `st2` returns
0 and changes nothing but the TLB log: the page table, the frames allocated and the
frame oracle are those of `st2`. The bucket of `(A, v)` in `st1` holds a node `e` for
`v`; the first fault wrote the TLB pair `(v, e.lo | ctrl)` and the second writes
`(v, e.lo | ctrl2)` with the same `entry_lo`, `ctrl` and `ctrl2` being derived from the
region modes at the two faults. -/
theorem C8_vm_fault_repeated_hit (st st2 : VMState) (as : Nat) (obj obj2 : addrspace)
    (faulttype faulttype2 : Int) (faultaddress faultaddress2 : Nat) (R2 : mem_region)
    (htab : table_ok st)
    (h1 : (vm_fault st (some ⟨some (as, obj)⟩) faulttype faultaddress).1 = 0)
    (hext : hpt_extends (vm_fault st (some ⟨some (as, obj)⟩) faulttype faultaddress).2 st2)
    (hreg : find_region obj2.head (page_of faultaddress) = some R2)
    (hpage : page_of faultaddress2 = page_of faultaddress)
    (hty : faulttype2 = VM_FAULT_READ ∨ faulttype2 = VM_FAULT_WRITE) :
    ∃ R e,
      find_region obj.head (page_of faultaddress) = some R ∧
      e ∈ ((vm_fault st (some ⟨some (as, obj)⟩) faulttype faultaddress).2.slot
            (hpt_index st as (page_of faultaddress))).nodes ∧
      e.hi = page_of faultaddress ∧
      (vm_fault st (some ⟨some (as, obj)⟩) faulttype faultaddress).2.tlb.head?
        = some (page_of faultaddress, e.lo ||| derived_ctrl R.mode) ∧
      vm_fault st2 (some ⟨some (as, obj2)⟩) faulttype2 faultaddress2
        = (0, tlb_random st2 (page_of faultaddress) (e.lo ||| derived_ctrl R2.mode)) ∧
      (vm_fault st2 (some ⟨some (as, obj2)⟩) faulttype2 faultaddress2).2.page_table
        = st2.page_table ∧
      (vm_fault st2 (some ⟨some (as, obj2)⟩) faulttype2 faultaddress2).2.allocated
        = st2.allocated ∧
      (vm_fault st2 (some ⟨some (as, obj2)⟩) faulttype2 faultaddress2).2.kpages
        = st2.kpages := by
  obtain ⟨R, e, hf, hpos, hlt, hl, htlb⟩ :=
    vm_fault_leaves_node st as obj faulttype faultaddress htab h1
  have hsz1 := (vm_fault_extends st (some ⟨some (as, obj)⟩) faulttype faultaddress).1
  have hidx : hpt_index st2 as (page_of faultaddress) = hpt_index st as (page_of faultaddress) := by
    unfold hpt_index; rw [hext.1, hsz1]
  have hl2 := bucket_lookup_extends _ st2 _ _ _ hext hl
  rw [← hidx] at hl2
  have k := vm_fault_hit st2 as obj2 faulttype2 faultaddress2 R2 e hty
    (hpage ▸ hpos) (hpage ▸ hlt) (hpage ▸ hreg) (hpage ▸ hl2)
  rw [hpage] at k
  obtain ⟨m1, m2, _⟩ := bucket_lookup_some _ _ _ hl
  refine ⟨R, e, hf, m1, m2, htlb, k, ?_, ?_, ?_⟩
  · rw [k]; rfl
  · rw [k]; rfl
  · rw [k]; rfl

/-- Witness of C8: scenario S3. A read-faults on `0x00400abc` after boot; the fault is
repeated as a write fault at once, and again after B has faulted into the same
bucket: both repetitions return 0 and allocate nothing. -/
theorem C8_witness :
    (vm_fault (boot128 [0x80100000, 0x80101000] [0x80060000]) (proc_of asA objA)
        VM_FAULT_READ 0x00400abc).1 = 0 ∧
    (∃ R e,
      find_region objA.head (page_of 0x00400abc) = some R ∧
      e ∈ ((vm_fault (boot128 [0x80100000, 0x80101000] [0x80060000]) (proc_of asA objA)
              VM_FAULT_READ 0x00400abc).2.slot
            (hpt_index (boot128 [0x80100000, 0x80101000] [0x80060000]) asA
              (page_of 0x00400abc))).nodes ∧
      e.hi = page_of 0x00400abc ∧
      (vm_fault (boot128 [0x80100000, 0x80101000] [0x80060000]) (proc_of asA objA)
          VM_FAULT_READ 0x00400abc).2.tlb.head?
        = some (page_of 0x00400abc, e.lo ||| derived_ctrl R.mode) ∧
      vm_fault (vm_fault (boot128 [0x80100000, 0x80101000] [0x80060000]) (proc_of asA objA)
            VM_FAULT_READ 0x00400abc).2 (proc_of asA objA) VM_FAULT_WRITE 0x00400def
        = (0, tlb_random (vm_fault (boot128 [0x80100000, 0x80101000] [0x80060000])
              (proc_of asA objA) VM_FAULT_READ 0x00400abc).2
            (page_of 0x00400abc) (e.lo ||| derived_ctrl 5))) ∧
    ((vm_fault stAB (proc_of asA objA) VM_FAULT_WRITE 0x00400def).1 = 0 ∧
     (vm_fault stAB (proc_of asA objA) VM_FAULT_WRITE 0x00400def).2.allocated
        = stAB.allocated) ∧
    stAB.slot 16 = ⟨0x00400000, 0x00100200, asA, [⟨0x00430000, 0x00101200, asB⟩]⟩ :=
  ⟨by decide,
   match C8_vm_fault_repeated_hit (boot128 [0x80100000, 0x80101000] [0x80060000])
      (vm_fault (boot128 [0x80100000, 0x80101000] [0x80060000]) (proc_of asA objA)
        VM_FAULT_READ 0x00400abc).2
      asA objA objA VM_FAULT_READ VM_FAULT_WRITE 0x00400abc 0x00400def ⟨0x00400000, 1, 5, 5⟩
      (by decide) (by decide) (hpt_extends_refl _) (by decide) (by decide) (Or.inr rfl) with
   | ⟨R, e, h1, h2, h3, h4, h5, _⟩ => ⟨R, e, h1, h2, h3, h4, h5⟩,
   match C8_vm_fault_repeated_hit (boot128 [0x80100000, 0x80101000] [0x80060000]) stAB
      asA objA objA VM_FAULT_READ VM_FAULT_WRITE 0x00400abc 0x00400def ⟨0x00400000, 1, 5, 5⟩
      (by decide) (by decide) (vm_fault_extends _ _ _ _) (by decide) (by decide) (Or.inr rfl) with
   | ⟨_, _, _, _, _, _, h5, _, h7, _⟩ => ⟨congrArg Prod.fst h5, h7⟩,
   by decide⟩

/-- C9. For an address space whose regions have page-aligned bases (the data-model
invariant, kept by every operation that builds region lists) and none of whose
regions covers the page of the fault address (the empty region list included), a
`READ` or `WRITE` fault with `0 < page < USERSTACK` returns `EFAULT` and the state
returned is the state given. A region covers `p` when
`vbase <= p < vbase + npages * PAGE_SIZE`. -/
theorem C9_vm_fault_outside_regions (st : VMState) (as : Nat) (obj : addrspace)
    (faulttype : Int) (faultaddress : Nat)
    (hty : faulttype = VM_FAULT_READ ∨ faulttype = VM_FAULT_WRITE)
    (hpos : 0 < page_of faultaddress) (hlt : page_of faultaddress < USERSTACK)
    (halign : ∀ r ∈ obj.head, region_aligned r)
    (hnone : ∀ r ∈ obj.head, ¬ covers r (page_of faultaddress)) :
    vm_fault st (some ⟨some (as, obj)⟩) faulttype faultaddress = (EFAULT, st) := by
  have hf := find_region_none obj.head (page_of faultaddress) halign hnone
  unfold page_of at hpos hlt hf
  have h0 : ¬ (faultaddress &&& PAGE_FRAME = 0) := by omega
  have hro : faulttype ≠ VM_FAULT_READONLY := by
    rcases hty with h | h <;> rw [h] <;> decide
  simp [vm_fault, h0, Nat.not_le.mpr hlt, hro, hty, hf]

/-- Witness of C9: a write fault of A outside its two regions, and a read fault of an
address space without regions. -/
theorem C9_witness :
    vm_fault (boot128 [] []) (proc_of asA objA) VM_FAULT_WRITE 0x00500abc
        = (EFAULT, boot128 [] []) ∧
    vm_fault (boot128 [] []) (proc_of asA ⟨[]⟩) VM_FAULT_READ 0x00400abc
        = (EFAULT, boot128 [] []) :=
  ⟨C9_vm_fault_outside_regions (boot128 [] []) asA objA VM_FAULT_WRITE 0x00500abc
      (Or.inr rfl) (by decide) (by decide) (by decide) (by decide),
   C9_vm_fault_outside_regions (boot128 [] []) asA ⟨[]⟩ VM_FAULT_READ 0x00400abc
      (Or.inl rfl) (by decide) (by decide) (by decide) (by decide)⟩

/-- C10. For 32-bit `vaddr` and `memsize` with
`memsize + vaddr mod PAGE_SIZE + PAGE_SIZE - 1 < 2^32`, a successful
`as_define_region` leaves the old regions in place and in order and appends one region
at the end, whose base is `vaddr` with the low 12 bits cleared and whose page count is
the ceiling of `(memsize + vaddr mod PAGE_SIZE) / PAGE_SIZE`. -/
theorem C10_as_define_region_appends (st : VMState) (as : addrspace) (vaddr memsize : Nat)
    (readable writeable executable : Nat)
    (hv : vaddr < 2 ^ 32)
    (hm : memsize + vaddr % PAGE_SIZE + PAGE_SIZE - 1 < 2 ^ 32)
    (hok : (as_define_region st as vaddr memsize readable writeable executable).1 = 0) :
    ∃ new : mem_region,
      (as_define_region st as vaddr memsize readable writeable executable).2.1.head
        = as.head ++ [new] ∧
      new.vbase = vaddr - vaddr % PAGE_SIZE ∧
      new.size = (memsize + vaddr % PAGE_SIZE + PAGE_SIZE - 1) / PAGE_SIZE ∧
      memsize + vaddr % PAGE_SIZE ≤ new.size * PAGE_SIZE ∧
      new.size * PAGE_SIZE < memsize + vaddr % PAGE_SIZE + PAGE_SIZE := by
  have hP : PAGE_SIZE = 4096 := rfl
  have hbase : vaddr &&& PAGE_FRAME = vaddr - vaddr % PAGE_SIZE := by
    rw [land_PAGE_FRAME vaddr hv, hP]; omega
  have h1 : (memsize + (vaddr &&& (0xffffffff ^^^ PAGE_FRAME))) % 2 ^ 32
      = memsize + vaddr % PAGE_SIZE := by
    rw [land_low_bits]
    apply Nat.mod_eq_of_lt
    rw [hP] at hm ⊢; omega
  have h2 : (memsize + vaddr % PAGE_SIZE + PAGE_SIZE - 1) % 2 ^ 32
      = memsize + vaddr % PAGE_SIZE + PAGE_SIZE - 1 := Nat.mod_eq_of_lt hm
  have h3 : ((memsize + vaddr % PAGE_SIZE + PAGE_SIZE - 1) &&& PAGE_FRAME) / PAGE_SIZE
      = (memsize + vaddr % PAGE_SIZE + PAGE_SIZE - 1) / PAGE_SIZE := by
    rw [land_PAGE_FRAME _ hm, hP]
    exact Nat.mul_div_cancel _ (by decide)
  unfold as_define_region at hok ⊢
  simp only [h1, h2, h3, hbase] at hok ⊢
  unfold init_region at hok ⊢
  by_cases hk : (kmalloc st).1 = 0
  · simp [hk, ENOMEM] at hok
  · simp only [hk, if_false]
    refine ⟨_, by rw [append_region_eq], rfl, rfl, ?_, ?_⟩
    · show _ ≤ (memsize + vaddr % PAGE_SIZE + PAGE_SIZE - 1) / PAGE_SIZE * PAGE_SIZE
      rw [hP]; omega
    · show (memsize + vaddr % PAGE_SIZE + PAGE_SIZE - 1) / PAGE_SIZE * PAGE_SIZE < _
      rw [hP]; omega

/-- Witness of C10: scenario S1, `vaddr = 0x00401234` and `memsize = 0x2000` give base
`0x00401000` and 3 pages. -/
theorem C10_witness :
    (∃ new : mem_region,
      (as_define_region (boot128 [] [0x80060000]) objB 0x00401234 0x2000 1 0 1).2.1.head
        = objB.head ++ [new] ∧
      new.vbase = 0x00401234 - 0x00401234 % PAGE_SIZE ∧
      new.size = (0x2000 + 0x00401234 % PAGE_SIZE + PAGE_SIZE - 1) / PAGE_SIZE ∧
      0x2000 + 0x00401234 % PAGE_SIZE ≤ new.size * PAGE_SIZE ∧
      new.size * PAGE_SIZE < 0x2000 + 0x00401234 % PAGE_SIZE + PAGE_SIZE) ∧
    0x00401234 - 0x00401234 % PAGE_SIZE = 0x00401000 ∧
    (0x2000 + 0x00401234 % PAGE_SIZE + PAGE_SIZE - 1) / PAGE_SIZE = 3 :=
  ⟨C10_as_define_region_appends (boot128 [] [0x80060000]) objB 0x00401234 0x2000 1 0 1
      (by decide) (by decide) (by decide),
   by decide, by decide⟩

/-- C11 (defect in the code). `as_define_region` stores the bitwise OR of the three
flag words as they are passed; it has no step that encodes a flag that is set as its
ELF permission bit. The call of the claim, flags 1, 0, 1, succeeds and appends a
region with `mode = acc_mode = 1`, which is `PF_X` alone: the readable flag is
non-zero and `PF_R` is absent. With the flags 1, 1, 1 the mode is again 1 and `PF_W`
is absent, so the segment asked to be writeable carries no write permission. For
every call that returns 0 the stored mode is `readable | writeable | executable`; it
agrees with the encoding of the claim when each flag is 0 or its own ELF bit. -/
theorem C11_as_define_region_stores_raw_flags :
    (as_define_region (boot128 [] [0x80060000]) ⟨[]⟩ 0x00401234 0x2000 1 0 1).1 = 0 ∧
    (as_define_region (boot128 [] [0x80060000]) ⟨[]⟩ 0x00401234 0x2000 1 0 1).2.1.head
      = [⟨0x00401000, 3, 1, 1⟩] ∧
    (1 : Nat) = PF_X ∧
    (1 : Nat) ≠ PF_R ||| PF_X ∧
    ¬ ((1 : Nat) &&& PF_R = PF_R) ∧
    (as_define_region (boot128 [] [0x80060000]) ⟨[]⟩ 0x00401234 0x2000 1 1 1).1 = 0 ∧
    (as_define_region (boot128 [] [0x80060000]) ⟨[]⟩ 0x00401234 0x2000 1 1 1).2.1.head
      = [⟨0x00401000, 3, 1, 1⟩] ∧
    ¬ ((1 : Nat) &&& PF_W = PF_W) ∧
    (∀ (st : VMState) (as : addrspace) (vaddr memsize readable writeable executable : Nat),
      (as_define_region st as vaddr memsize readable writeable executable).1 = 0 →
      ∃ new : mem_region,
        (as_define_region st as vaddr memsize readable writeable executable).2.1.head
          = as.head ++ [new] ∧
        new.mode = readable ||| writeable ||| executable ∧
        new.acc_mode = readable ||| writeable ||| executable) ∧
    (∀ readable writeable executable : Nat,
      (readable = 0 ∨ readable = PF_R) → (writeable = 0 ∨ writeable = PF_W) →
      (executable = 0 ∨ executable = PF_X) →
      ((readable ||| writeable ||| executable) &&& PF_R = PF_R ↔ readable ≠ 0) ∧
      ((readable ||| writeable ||| executable) &&& PF_W = PF_W ↔ writeable ≠ 0) ∧
      ((readable ||| writeable ||| executable) &&& PF_X = PF_X ↔ executable ≠ 0)) := by
  refine ⟨by decide, by decide, by decide, by decide, by decide, by decide, by decide,
    by decide, ?_, elf_flag_bits⟩
  intro st as vaddr memsize readable writeable executable hok
  unfold as_define_region init_region at hok ⊢
  simp only [] at hok ⊢
  by_cases hk : (kmalloc st).1 = 0
  · simp only [hk, if_true] at hok
    exact absurd (show ENOMEM = 0 from hok) (by decide)
  · simp only [hk, if_false]
    exact ⟨_, by rw [append_region_eq], rfl, rfl⟩

/-- C12. For every address space, `as_prepare_load` and `as_complete_load` return 0 and
keep the number and order of the regions and each region's `vbase`, `npages` and
`acc_mode`; `as_prepare_load` sets every `mode` to `mode | PF_W`, `as_complete_load`
sets every `mode` to `acc_mode`, and after `as_prepare_load` followed by
`as_complete_load` every region has `mode = acc_mode`. -/
theorem C12_prepare_complete_load (as : addrspace) :
    (as_prepare_load as).1 = 0 ∧
    (as_complete_load as).1 = 0 ∧
    (as_complete_load (as_prepare_load as).2).1 = 0 ∧
    (as_prepare_load as).2.head
      = as.head.map (fun r => ⟨r.vbase, r.size, r.mode ||| PF_W, r.acc_mode⟩) ∧
    (as_complete_load as).2.head
      = as.head.map (fun r => ⟨r.vbase, r.size, r.acc_mode, r.acc_mode⟩) ∧
    (as_complete_load (as_prepare_load as).2).2.head
      = as.head.map (fun r => ⟨r.vbase, r.size, r.acc_mode, r.acc_mode⟩) ∧
    (∀ r ∈ (as_complete_load (as_prepare_load as).2).2.head, r.mode = r.acc_mode) ∧
    (as_prepare_load as).2.head.length = as.head.length ∧
    (as_complete_load as).2.head.length = as.head.length := by
  refine ⟨rfl, rfl, rfl, rfl, rfl, ?_, ?_, ?_, ?_⟩
  · simp [as_complete_load, as_prepare_load, List.map_map, Function.comp]
  · intro r hr
    simp only [as_complete_load, List.mem_map] at hr
    obtain ⟨r0, _, rfl⟩ := hr
    rfl
  · simp [as_prepare_load]
  · simp [as_complete_load]

/-- C13 (defect in the code). For an address space whose region list is empty, as
`as_create` returns it, `as_define_stack` reads `curr_region->next` with
`curr_region == NULL`: the call does not return, whatever the state of the allocator.
On the same machine the call on a list that is not empty returns 0 with the stack
region last. -/
theorem C13_as_define_stack_empty_list :
    (∀ st : VMState, as_define_stack st ⟨[]⟩ = none) ∧
    (as_create (boot128 [] [asA, 0x80060000])).1 = (asA, ⟨[]⟩) ∧
    (as_define_stack (as_create (boot128 [] [asA, 0x80060000])).2
        (as_create (boot128 [] [asA, 0x80060000])).1.2).map (fun r => (r.err, r.stackptr))
      = none ∧
    (as_define_stack (boot128 [] [0x80060000]) objB).map (fun r => (r.err, r.as, r.stackptr))
      = some (0, ⟨[⟨0x00400000, 0x100, 5, 5⟩, ⟨0x7ffee000, 18, 7, 7⟩]⟩, some 0x80000000) := by
  refine ⟨fun _ => rfl, ?_, ?_, ?_⟩ <;> decide

/-- C14. When `as_copy(old)` returns 0 with a new address space as its result (the
pointer `as_create` gave is not `NULL`), that pointer is stored through `ret` and the
region list of the new address space equals the region list of `old`: same length
and, position by position, the same `vbase`, `npages`, `mode` and `acc_mode`,
whatever the list is (empty, or with `mode` different from `acc_mode`). The region
list of `old` is an input that `as_copy` only reads. -/
theorem C14_as_copy_clones_regions (st : VMState) (old : Nat) (oldobj : addrspace)
    (h : (as_copy st old oldobj).map (fun r => r.err) = Res.ok 0)
    (hnew : (as_create st).1.1 ≠ 0) :
    (as_copy st old oldobj).map (fun r => (r.ret, r.newobj))
      = Res.ok (some (as_create st).1.1, some oldobj) ∧
    (as_copy st old oldobj).map
        (fun r => r.newobj.map (fun new => (new.head.length, new.head)))
      = Res.ok (some (oldobj.head.length, oldobj.head)) := by
  obtain ⟨r, hr, h0⟩ := Res.map_eq_ok _ _ _ h
  obtain ⟨h1, h2, h3, _⟩ := as_copy_zero_regions st old oldobj r hr h0
  have h4 : r.newobj = some oldobj := h3 (by rw [h2]; exact hnew)
  rw [hr]
  simp only [Res.map, h1, h2, h4, Option.map]
  exact ⟨trivial, trivial⟩

/-- Witness of C14: a copy of A (two regions, two resident pages), a copy of an address
space without regions, and a copy of an address space between `as_prepare_load` and
`as_complete_load` (`mode` 7, `acc_mode` 5). The last part is the run the hypothesis
on `as_create` leaves out: `kmalloc` fails, `old` has no regions, and `as_copy`
returns 0 with `NULL` stored through `ret` and no new address space. -/
theorem C14_witness :
    (as_copy (stBAA [0x80103000, 0x80104000] [0x80040030, 0x80070000, 0x80070010, 0x80070020])
        asA objA).map (fun r => (r.ret, r.newobj))
      = Res.ok (some 0x80040030, some objA) ∧
    (as_copy (boot128 [] [0x80040030]) asA ⟨[]⟩).map (fun r => (r.ret, r.newobj))
      = Res.ok (some 0x80040030, some ⟨[]⟩) ∧
    (as_copy (boot128 [] [0x80040030, 0x80070000]) asA (as_prepare_load ⟨[⟨0x00400000, 1, 5, 5⟩]⟩).2).map
        (fun r => (r.ret, r.newobj))
      = Res.ok (some 0x80040030, some ⟨[⟨0x00400000, 1, 7, 5⟩]⟩) ∧
    (as_copy (boot128 [] []) asA ⟨[]⟩).map (fun r => (r.err, r.ret, r.newobj))
      = Res.ok (0, some 0, none) :=
  ⟨(C14_as_copy_clones_regions
      (stBAA [0x80103000, 0x80104000] [0x80040030, 0x80070000, 0x80070010, 0x80070020])
      asA objA (by decide) (by decide)).1,
   (C14_as_copy_clones_regions (boot128 [] [0x80040030]) asA ⟨[]⟩ (by decide) (by decide)).1,
   (C14_as_copy_clones_regions (boot128 [] [0x80040030, 0x80070000]) asA
      (as_prepare_load ⟨[⟨0x00400000, 1, 5, 5⟩]⟩).2 (by decide) (by decide)).1,
   by decide⟩

/-- C15. In a state with a well-shaped table whose target bucket obeys the structural
invariant (no chain behind an empty primary entry), a successful `page_table_insert`
of `(vpn, entry_lo, owner)` with `entry_lo != 0` changes only bucket
`(owner XOR (vpn >> 12)) mod H`: if its primary entry was empty the tuple is written
there with `next = none`; otherwise the primary entry stays and the tuple is appended
at the tail of the chain. Either way the node sequence of the bucket is the previous
one followed by the tuple, and every other slot is unchanged. -/
theorem C15_page_table_insert_effect (st : VMState) (hi lo as : Nat)
    (htab : table_ok st) (hlo : lo ≠ 0)
    (hb : bucket_ok (st.slot (hpt_index st as hi)))
    (hok : (page_table_insert st hi lo as).1 = 0) :
    hpt_index st as hi = (as ^^^ (hi >>> 12)) % st.hpt_size ∧
    ((st.slot (hpt_index st as hi)).lo = 0 →
      (page_table_insert st hi lo as).2.slot (hpt_index st as hi) = ⟨hi, lo, as, []⟩) ∧
    ((st.slot (hpt_index st as hi)).lo ≠ 0 →
      (page_table_insert st hi lo as).2.slot (hpt_index st as hi)
        = { st.slot (hpt_index st as hi) with
            next := (st.slot (hpt_index st as hi)).next ++ [⟨hi, lo, as⟩] }) ∧
    ((page_table_insert st hi lo as).2.slot (hpt_index st as hi)).nodes
      = (st.slot (hpt_index st as hi)).nodes ++ [⟨hi, lo, as⟩] ∧
    (∀ j, j ≠ hpt_index st as hi → (page_table_insert st hi lo as).2.slot j = st.slot j) ∧
    (page_table_insert st hi lo as).2.hpt_size = st.hpt_size ∧
    (page_table_insert st hi lo as).2.page_table.length = st.page_table.length := by
  obtain ⟨hslot, hsz⟩ := page_table_insert_slot st hi lo as htab hok
  have hext := page_table_insert_extends st hi lo as
  refine ⟨rfl, ?_, ?_, ?_, ?_, hsz, hext.2.1⟩
  · intro hz
    rw [hslot, if_pos hz]
  · intro hz
    rw [hslot, if_neg hz]
  · rw [hslot]
    by_cases hz : (st.slot (hpt_index st as hi)).lo = 0
    · rw [if_pos hz]
      simp [HPT.nodes, hz, hb hz, hlo]
    · rw [if_neg hz]
      simp [HPT.nodes, hz]
  · intro j hj
    exact page_table_insert_other st hi lo as j hj

/-- Witness of C15: on the booted machine the node of B goes into the empty primary
entry of bucket 16; after that the node of A for the same bucket is appended to the
chain. -/
theorem C15_witness :
    (page_table_insert (boot128 [] []) 0x00430000 0x00100200 asB).2.slot 16
      = ⟨0x00430000, 0x00100200, asB, []⟩ ∧
    ((page_table_insert (stB [] [0x80060000]) 0x00400000 0x00101200 asA).2.slot 16).nodes
      = [⟨0x00430000, 0x00100200, asB⟩, ⟨0x00400000, 0x00101200, asA⟩] :=
  ⟨(C15_page_table_insert_effect (boot128 [] []) 0x00430000 0x00100200 asB
      (by decide) (by decide) (by decide) (by decide)).2.1 (by decide),
   (C15_page_table_insert_effect (stB [] [0x80060000]) 0x00400000 0x00101200 asA
      (by decide) (by decide) (by decide) (by decide)).2.2.2.1⟩

/-- C16. `page_table_insert` returns `ENOMEM` exactly when the primary entry of the
target bucket is occupied and the allocation of the overflow node fails; the page
table is then identical to the one before the call. In every other case it returns 0;
when the primary entry is empty it returns 0 without calling the allocator. -/
theorem C16_page_table_insert_ENOMEM (st : VMState) (hi lo as : Nat) :
    ((page_table_insert st hi lo as).1 = ENOMEM ↔
      ((st.slot (hpt_index st as hi)).lo ≠ 0 ∧ (kmalloc st).1 = 0)) ∧
    ((page_table_insert st hi lo as).1 = ENOMEM →
      (page_table_insert st hi lo as).2.page_table = st.page_table ∧
      (page_table_insert st hi lo as).2.hpt_size = st.hpt_size) ∧
    ((page_table_insert st hi lo as).1 ≠ ENOMEM → (page_table_insert st hi lo as).1 = 0) ∧
    ((st.slot (hpt_index st as hi)).lo = 0 →
      (page_table_insert st hi lo as).1 = 0 ∧
      (page_table_insert st hi lo as).2.kheap = st.kheap) := by
  obtain ⟨c1, c2, c3⟩ := page_table_insert_code st hi lo as
  have hE : ENOMEM ≠ 0 := by decide
  have hiff : (page_table_insert st hi lo as).1 = ENOMEM ↔
      ((st.slot (hpt_index st as hi)).lo ≠ 0 ∧ (kmalloc st).1 = 0) := by
    constructor
    · intro h
      by_cases hz : (st.slot (hpt_index st as hi)).lo = 0
      · rw [c1 hz] at h
        exact absurd h.symm hE
      · by_cases hk : (kmalloc st).1 = 0
        · exact ⟨hz, hk⟩
        · rw [c3 hz hk] at h
          exact absurd h.symm hE
    · intro h
      rw [c2 h.1 h.2]
  refine ⟨hiff, ?_, ?_, ?_⟩
  · intro h
    obtain ⟨hz, hk⟩ := hiff.mp h
    rw [c2 hz hk]
    exact ⟨(kmalloc_table st).2, (kmalloc_table st).1⟩
  · intro h
    by_cases hz : (st.slot (hpt_index st as hi)).lo = 0
    · rw [c1 hz]
    · by_cases hk : (kmalloc st).1 = 0
      · exact absurd (hiff.mpr ⟨hz, hk⟩) h
      · exact c3 hz hk
  · intro hz
    rw [c1 hz]
    exact ⟨rfl, rfl⟩

/-- C17 (defect in the code, consequence of C1). From boot, B faults on page
`0x00430000`, A on pages `0x00400000` and `0x00800000`, B on page `0x00800000`, then A
is destroyed: the node of A for page `0x00800000` stays in bucket 16. B is then
copied, `kmalloc` hands the freed address of A to the new address space, and the copy
of the node of B for page `0x00800000` is inserted behind the stale node: the table
holds two occupied nodes with the same `(owner, vpn)`. Every frame the allocator
handed out is distinct and the one freed frame was never handed out again. -/
theorem C17_duplicate_owner_vpn_after_destroy :
    (stDestroyedA [] []).slot 16
      = ⟨0x00430000, 0x00100200, asB, [⟨0x00800000, 0x00102600, asA⟩]⟩ ∧
    (as_copy (stDestroyedA [0x80104000, 0x80105000]
          [asA, 0x80070000, 0x80070010, 0x80070020, 0x80070030]) asB objB2).map
        (fun r => (r.err, r.ret, r.newobj, (r.st.slot 16).nodes))
      = Res.ok (0, some asA, some objB2,
          [⟨0x00430000, 0x00100200, asB⟩, ⟨0x00800000, 0x00102600, asA⟩,
           ⟨0x00800000, 0x00105600, asA⟩]) ∧
    (as_copy (stDestroyedA [0x80104000, 0x80105000]
          [asA, 0x80070000, 0x80070010, 0x80070020, 0x80070030]) asB objB2).map
        (fun r => (owned_nodes r.st asA, r.st.allocated, r.st.freed))
      = Res.ok (
          [⟨0x00800000, 0x00102600, asA⟩, ⟨0x00800000, 0x00105600, asA⟩,
           ⟨0x00430000, 0x00104200, asA⟩],
          [0x80105000, 0x80104000, 0x80103000, 0x80102000, 0x80101000, 0x80100000],
          [0x80101000]) ∧
    (⟨0x00800000, 0x00102600, asA⟩ : PTE) ≠ ⟨0x00800000, 0x00105600, asA⟩ ∧
    ([0x80105000, 0x80104000, 0x80103000, 0x80102000, 0x80101000, 0x80100000] : List Nat).Nodup := by
  decide

/-- C18 (defect in the code, consequence of C1). After the destruction of A its node
for page `0x00800000` is still in the table. `as_create` then receives the freed
address of A from `kmalloc`, and the new address space defines one region, the page
at `0x00400000`: it is live, it owns the occupied node for page `0x00800000`, and
none of its regions covers that page. -/
theorem C18_live_owner_without_region :
    owned_nodes (stDestroyedA [] [asA, 0x80070000]) asA = [⟨0x00800000, 0x00102600, asA⟩] ∧
    (as_create (stDestroyedA [] [asA, 0x80070000])).1 = (asA, ⟨[]⟩) ∧
    (as_define_region (as_create (stDestroyedA [] [asA, 0x80070000])).2
        (as_create (stDestroyedA [] [asA, 0x80070000])).1.2 0x00400000 0x1000 4 0 1).1 = 0 ∧
    (as_define_region (as_create (stDestroyedA [] [asA, 0x80070000])).2
        (as_create (stDestroyedA [] [asA, 0x80070000])).1.2 0x00400000 0x1000 4 0 1).2.1
      = ⟨[⟨0x00400000, 1, 5, 5⟩]⟩ ∧
    owned_nodes
        (as_define_region (as_create (stDestroyedA [] [asA, 0x80070000])).2
          (as_create (stDestroyedA [] [asA, 0x80070000])).1.2 0x00400000 0x1000 4 0 1).2.2 asA
      = [⟨0x00800000, 0x00102600, asA⟩] ∧
    (∀ R ∈ [(⟨0x00400000, 1, 5, 5⟩ : mem_region)], ¬ covers R 0x00800000) := by
  decide

/-- C19. In a state whose overflow nodes are all occupied, `as_destroy(A)` does not
disturb other address spaces: in every bucket the sequence of nodes with
`owner != A` (primary entry, then chain) is the same before and after the call; every
frame handed to `free_kpages` during the call is the frame of a node with `owner == A`
that was in the table, so no frame of a node of another owner is returned when frames
are not shared between owners; and a bucket within the table whose nodes were all
owned by A ends as the empty sentinel `(INVALID_VPN(i mod 64), 0, none, none)`. -/
theorem C19_as_destroy_keeps_others (st : VMState) (as : Nat) (obj : addrspace)
    (hch : ∀ s ∈ st.page_table, ∀ n ∈ s.next, n.lo ≠ 0) :
    (∀ i, ((as_destroy st as obj).slot i).nodes.filter (fun x => decide (x.as ≠ as))
        = (st.slot i).nodes.filter (fun x => decide (x.as ≠ as))) ∧
    (∃ frees, (as_destroy st as obj).freed = frees ++ st.freed ∧
      (∀ f ∈ frees, ∃ i, ∃ x ∈ (st.slot i).nodes, x.as = as ∧ f = frame_kvaddr x.lo) ∧
      (∀ j, ∀ y ∈ (st.slot j).nodes, y.as ≠ as →
        (∀ i, ∀ x ∈ (st.slot i).nodes, x.as = as → frame_kvaddr x.lo ≠ frame_kvaddr y.lo) →
        frame_kvaddr y.lo ∉ frees)) ∧
    (∀ i, i < st.hpt_size → as ≠ 0 → (st.slot i).lo ≠ 0 →
      (∀ x ∈ (st.slot i).nodes, x.as = as) →
      (as_destroy st as obj).slot i = ⟨TLBHI_INVALID (i % 64), 0, 0, []⟩) := by
  obtain ⟨_, _, hslot, _, _, _, frees, hfr, hfrom⟩ := destroy_loop_spec as st.hpt_size st
  have hspec := fun i => destroy_slot_spec as i (st.slot i) (chain_occupied_of_table st hch i)
  have hsrc : ∀ f ∈ frees, ∃ i, ∃ x ∈ (st.slot i).nodes, x.as = as ∧ f = frame_kvaddr x.lo := by
    intro f hf
    obtain ⟨i, _, hfi⟩ := hfrom f hf
    obtain ⟨x, hx, hxa, hfx⟩ := (hspec i).2.2.2.2.1 f hfi
    exact ⟨i, x, hx, hxa, hfx⟩
  refine ⟨?_, ⟨frees, hfr, hsrc, ?_⟩, ?_⟩
  · intro i
    show ((destroy_loop as st.hpt_size st).slot i).nodes.filter _ = _
    rw [hslot i]
    by_cases hi : i < st.hpt_size
    · rw [if_pos hi]
      exact (hspec i).1
    · rw [if_neg hi]
  · intro j y hy hya hdist hmem
    obtain ⟨i, x, hx, hxa, hfx⟩ := hsrc _ hmem
    exact hdist i x hx hxa hfx.symm
  · intro i hi has hlo hall
    show (destroy_loop as st.hpt_size st).slot i = _
    rw [hslot i, if_pos hi]
    exact (hspec i).2.2.2.2.2 hlo has hall

/-- Witness of C19: in bucket 16 the entry of A is followed by a node of B, and
`as_destroy(A)` promotes the node of B; in a bucket holding two nodes of A only,
`as_destroy(A)` leaves the empty sentinel. -/
theorem C19_witness :
    (stAB.slot 16).nodes = [⟨0x00400000, 0x00100200, asA⟩, ⟨0x00430000, 0x00101200, asB⟩] ∧
    ((as_destroy stAB asA objA).slot 16).nodes.filter (fun x => decide (x.as ≠ asA))
      = [⟨0x00430000, 0x00101200, asB⟩] ∧
    (as_destroy stAA asA objA).slot 16 = ⟨TLBHI_INVALID (16 % 64), 0, 0, []⟩ :=
  ⟨by decide,
   ((C19_as_destroy_keeps_others stAB asA objA (by decide)).1 16).trans (by decide),
   (C19_as_destroy_keeps_others stAA asA objA (by decide)).2.2 16
      (by decide) (by decide) (by decide) (by decide)⟩

/-- C20. Structural invariant of the hashed page table. In the state `vm_bootstrap`
produces and in every state reached from it by `page_table_insert` of an occupied
tuple, `vm_fault`, `as_copy` and `as_destroy`: (a) a bucket whose primary entry is
empty (`lo == 0`) has no overflow chain; (b) every node stored in bucket `i`, primary
or chained, also a chain node that `as_destroy` promoted into the primary entry, is
occupied and satisfies `(owner XOR (vpn >> 12)) mod H == i`; so an occupied node for
`(owner, vpn)` can only sit in the bucket the fault handler computes, and the
handler's walk of that bucket then finds a node for the page. -/
theorem C20_hpt_structural_invariant (st : VMState) (h : Reach st) :
    (∀ i, (st.slot i).lo = 0 → (st.slot i).next = []) ∧
    (∀ i, ∀ n ∈ (st.slot i).nodes,
      n.lo ≠ 0 ∧ (n.as ^^^ (n.hi >>> 12)) % st.hpt_size = i) ∧
    (∀ j, ∀ n ∈ (st.slot j).nodes,
      j = hpt_index st n.as n.hi ∧
      ∃ e, bucket_lookup (st.slot (hpt_index st n.as n.hi)) n.hi = some e ∧
        e.hi = n.hi ∧ e.lo ≠ 0) := by
  have hinv := hpt_inv_of_Reach st h
  have hocc : ∀ i, ∀ n ∈ (st.slot i).nodes, n.lo ≠ 0 := by
    intro i n hn
    unfold HPT.nodes at hn
    rcases List.mem_append.1 hn with h1 | h1
    · by_cases hz : (st.slot i).lo = 0
      · rw [if_pos hz] at h1; cases h1
      · rw [if_neg hz] at h1
        rw [List.mem_singleton.1 h1]
        exact hz
    · exact (hinv i).2.1 n h1
  refine ⟨fun i => (hinv i).1, fun i n hn => ⟨hocc i n hn, (hinv i).2.2 n hn⟩, fun j n hn => ?_⟩
  have hj : hpt_index st n.as n.hi = j := (hinv j).2.2 n hn
  refine ⟨hj.symm, ?_⟩
  rw [hj]
  exact bucket_lookup_finds (st.slot j) n.hi (hinv j).1 n hn rfl (hocc j n hn)

/-- Witness of C20: from boot, A faults on page `0x00400000` and B on page
`0x00430000`, both in bucket 16, then A is destroyed, which promotes the node of B
into the primary entry. The state is reached by the operations; the promoted node
still hashes to bucket 16 and the walk for it finds it; the empty bucket 17 has no
chain. -/
theorem C20_witness :
    Reach (as_destroy stAB asA objA) ∧
    ((as_destroy stAB asA objA).slot 16).nodes = [⟨0x00430000, 0x00101200, asB⟩] ∧
    ((0x00101200 : Nat) ≠ 0 ∧
      (asB ^^^ (0x00430000 >>> 12)) % (as_destroy stAB asA objA).hpt_size = 16) ∧
    ((as_destroy stAB asA objA).slot 17).next = [] :=
  ⟨Reach.destroy _ _ _ (Reach.fault _ _ _ _ (Reach.fault _ _ _ _ (Reach.boot _ _))),
   by decide,
   (C20_hpt_structural_invariant (as_destroy stAB asA objA)
      (Reach.destroy _ _ _ (Reach.fault _ _ _ _ (Reach.fault _ _ _ _ (Reach.boot _ _))))).2.1
      16 ⟨0x00430000, 0x00101200, asB⟩ (by decide),
   (C20_hpt_structural_invariant (as_destroy stAB asA objA)
      (Reach.destroy _ _ _ (Reach.fault _ _ _ _ (Reach.fault _ _ _ _ (Reach.boot _ _))))).1
      17 (by decide)⟩

end VM
